import Mathlib

/-!
Verification development for the asynchronous media-generation orchestrator
of the InteractiveFilm-CharacterDailyAgent repository.

The Lean definitions below are a shallow embedding of the Python sources:

* `src/video/scene_processor.py` — `SceneProcessor.generate_scene_image`,
  `SceneProcessor.generate_scene_video`, `SceneProcessor.process_n_event`
  (the `process_director_scene` staging logic is identical);
* `src/video/unified_api_client.py` — `UnifiedAPIClient.query_video_status`
  (sora2 and kling paths), `UnifiedAPIClient.wait_for_video`,
  `UnifiedAPIClient.download_file` (modelled as a boolean oracle);
* `src/video/performance_generator.py` — the result collection of
  `PerformanceGenerator.generate` / `_add_scene_result_to_event`, the
  report persistence `_save_report`, and the interactive-data merge
  `_save_interactive_json` / `_merge_event_data`.

External effects (HTTP calls, downloads, the wall clock) are supplied by
oracle functions indexed by call counters; loops that the Python code runs
without a bound are given explicit fuel, with `none` standing for
"the loop is still running after `fuel` iterations".
-/

namespace CDA

open List (Perm)
open scoped List

/-! ### Generic list helpers -/

/-- Last index of `k` in `l`, or `none`.  This models the behaviour of a
Python dict built by one pass of `m[key] = value` (later entries win) and
then being queried with `key in m` / `m[key]`. -/
def lastIdxOf {β : Type} [DecidableEq β] (k : β) : List β → Option Nat
  | [] => none
  | a :: as =>
    match lastIdxOf k as with
    | some i => some (i + 1)
    | none => if a = k then some 0 else none

/-! ### Scene processor embedding (`src/video/scene_processor.py`)

The API calls a scene task makes are recorded in an ordered trace.  The
outcome of each external call is supplied by an oracle (`ApiEnv`) indexed
by a per-call-kind counter, so a run of the processor is a deterministic
function of the oracle. -/

/-- One observable API interaction of a scene task. -/
inductive CallEvent where
  | genImage (result : Option String)
  | submitVideo (ref : Option String) (result : Option String)
  | waitVideo (taskId : String) (result : Option String)
  | download (url : String) (dest : String) (ok : Bool)
  | sleep (seconds : Nat)
deriving DecidableEq, Repr

/-- Oracle for the outcomes of external calls, indexed per call kind. -/
structure ApiEnv where
  genImage : Nat → Option String
  submitVideo : Nat → Option String
  waitVideo : Nat → Option String
  download : Nat → Bool

/-- Per-call-kind counters threaded through a scene task. -/
structure Counters where
  gi : Nat
  sv : Nat
  wv : Nat
  dl : Nat
deriving DecidableEq, Repr

/-- Python `s.startswith(pre)`: the character list of `pre` is an initial
segment of the character list of `s`. -/
def strStartsWith (s pre : String) : Bool :=
  decide (s.data.take pre.data.length = pre.data)

/-- Python truthiness combined with `.startswith("http")`, as in
`if result and result.startswith("http")`. -/
def isHttp : Option String → Bool
  | some u => u ≠ "" && strStartsWith u "http"
  | none => false

/-- `SceneProcessor.generate_scene_image` (lines 255-278): submit the image
request; on an http URL download it to `imagePath`; otherwise (or on a
failed download) sleep 10 seconds and retry, without any bound.  `none`
means the loop is still running after `fuel` iterations; the Python
function has no return path other than a successful download. -/
def genImageLoop (env : ApiEnv) (imagePath : String) :
    Nat → Counters → Option String × Counters × List CallEvent
  | 0, c => (none, c, [])
  | fuel + 1, c =>
    let r := env.genImage c.gi
    let c1 : Counters := { c with gi := c.gi + 1 }
    match r with
    | some u =>
      if u ≠ "" && strStartsWith u "http" then
        let ok := env.download c1.dl
        let c2 : Counters := { c1 with dl := c1.dl + 1 }
        if ok then
          (some imagePath, c2, [CallEvent.genImage r, CallEvent.download u imagePath true])
        else
          let (res, c3, tr) := genImageLoop env imagePath fuel c2
          (res, c3, CallEvent.genImage r :: CallEvent.download u imagePath false ::
            CallEvent.sleep 10 :: tr)
      else
        let (res, c2, tr) := genImageLoop env imagePath fuel c1
        (res, c2, CallEvent.genImage r :: CallEvent.sleep 10 :: tr)
    | none =>
      let (res, c2, tr) := genImageLoop env imagePath fuel c1
      (res, c2, CallEvent.genImage r :: CallEvent.sleep 10 :: tr)

/-- Step 1 of `SceneProcessor.generate_scene_video` (lines 341-357): loop
on `generate_image` until the result is an http URL; that URL becomes the
reference image of the video stage.  No download happens here. -/
def refImageLoop (env : ApiEnv) :
    Nat → Counters → Option String × Counters × List CallEvent
  | 0, c => (none, c, [])
  | fuel + 1, c =>
    let r := env.genImage c.gi
    let c1 : Counters := { c with gi := c.gi + 1 }
    if isHttp r then
      (r, c1, [CallEvent.genImage r])
    else
      let (res, c2, tr) := refImageLoop env fuel c1
      (res, c2, CallEvent.genImage r :: CallEvent.sleep 10 :: tr)

/-- Result dictionary of `SceneProcessor.generate_scene_video`
(lines 310-313): initialised with both keys set to null. -/
structure VidResult where
  video_path : Option String
  task_id : Option String
deriving DecidableEq, Repr

/-- Step 2 of `SceneProcessor.generate_scene_video` (lines 361-442): the
`while video_retry <= max_video_retries` loop.  `rem` is the number of
loop iterations still allowed, i.e. `max_video_retries + 1 - video_retry`;
the Python loop increments `video_retry` on every non-returning path, so
it is structural recursion on `rem`.  On a null `wait_for_video` result
the loop re-submits only while `video_retry < max_video_retries`
(here `rem > 0` after this iteration), otherwise it returns the result
with a null `video_path` and the last submitted task id. -/
def videoLoop (env : ApiEnv) (videoPath : String) (refUrl : String) :
    Nat → VidResult → Counters → VidResult × Counters × List CallEvent
  | 0, res, c => (res, c, [])
  | rem + 1, res, c =>
    let sid := env.submitVideo c.sv
    let c1 : Counters := { c with sv := c.sv + 1 }
    let ev := CallEvent.submitVideo (some refUrl) sid
    match sid with
    | none =>
      let (r, c2, tr) := videoLoop env videoPath refUrl rem res c1
      (r, c2, ev :: CallEvent.sleep 10 :: tr)
    | some tid =>
      let res1 : VidResult := { res with task_id := some tid }
      let w := env.waitVideo c1.wv
      let c2 : Counters := { c1 with wv := c1.wv + 1 }
      let wev := CallEvent.waitVideo tid w
      match w with
      | some u =>
        if u ≠ "" && strStartsWith u "http" then
          let ok := env.download c2.dl
          let c3 : Counters := { c2 with dl := c2.dl + 1 }
          if ok then
            ({ res1 with video_path := some videoPath }, c3,
              [ev, wev, CallEvent.download u videoPath true])
          else
            let (r, c4, tr) := videoLoop env videoPath refUrl rem res1 c3
            (r, c4, ev :: wev :: CallEvent.download u videoPath false ::
              CallEvent.sleep 10 :: tr)
        else
          let (r, c3, tr) := videoLoop env videoPath refUrl rem res1 c2
          (r, c3, ev :: wev :: CallEvent.sleep 10 :: tr)
      | none =>
        if rem > 0 then
          let (r, c3, tr) := videoLoop env videoPath refUrl rem res1 c2
          (r, c3, ev :: wev :: CallEvent.sleep 10 :: tr)
        else
          (res1, c2, [ev, wev])

/-- `SceneProcessor.generate_scene_video` (lines 280-442): reference image
loop, then the bounded video retry loop.  `maxRetries` is
`api_client.max_retry_on_timeout`; the video loop runs at most
`maxRetries + 1` iterations.  `none` means the reference image loop is
still running after `refFuel` iterations. -/
def generateSceneVideo (env : ApiEnv) (videoPath : String)
    (maxRetries refFuel : Nat) (c : Counters) :
    Option (VidResult × Counters × List CallEvent) :=
  match refImageLoop env refFuel c with
  | (some refUrl, c1, tr1) =>
    let (r, c2, tr2) :=
      videoLoop env videoPath refUrl (maxRetries + 1) ⟨none, none⟩ c1
    some (r, c2, tr1 ++ tr2)
  | (none, _, _) => none

/-- Scene-level result record: the fields of the dictionaries built by
`SceneProcessor.process_n_event` (lines 789-796) and
`process_director_scene` (lines 883-894) that the media stages write. -/
structure SceneRunResult where
  image_path : Option String
  video_path : Option String
  task_id : Option String
deriving DecidableEq, Repr

/-- `SceneProcessor.process_n_event` (lines 757-823); the staging logic of
`process_director_scene` (lines 825-921) is identical.  The image stage
runs only when the image prompt is non-empty, the video stage only when
the sora prompt is non-empty.  `none` means one of the unbounded loops is
still running within its fuel. -/
def processScene (env : ApiEnv) (hasImagePrompt hasSoraPrompt : Bool)
    (imagePath videoPath : String) (imgFuel refFuel maxRetries : Nat) :
    Option (SceneRunResult × Counters × List CallEvent) :=
  if hasImagePrompt then
    match genImageLoop env imagePath imgFuel ⟨0, 0, 0, 0⟩ with
    | (none, _, _) => none
    | (some ip, c1, tr1) =>
      if hasSoraPrompt then
        match generateSceneVideo env videoPath maxRetries refFuel c1 with
        | some (vr, c2, tr2) =>
          some (⟨some ip, vr.video_path, vr.task_id⟩, c2, tr1 ++ tr2)
        | none => none
      else
        some (⟨some ip, none, none⟩, c1, tr1)
  else
    if hasSoraPrompt then
      match generateSceneVideo env videoPath maxRetries refFuel ⟨0, 0, 0, 0⟩ with
      | some (vr, c2, tr2) =>
        some (⟨none, vr.video_path, vr.task_id⟩, c2, tr2)
      | none => none
    else
      some (⟨none, none, none⟩, ⟨0, 0, 0, 0⟩, [])

/-! ### Unified API client embedding (`src/video/unified_api_client.py`) -/

/-- The dictionary returned by `query_video_status`: the `status`, `url`
and `error` keys read by `wait_for_video` (the kling path stores a
`progress` key instead of `error`; reading a missing key yields null, so
it is modelled as `none`). -/
structure StatusInfo where
  status : Option String
  url : Option String
  error : Option String
deriving DecidableEq, Repr

/-- Outcome of one attempt of `_query_sora2_status` against one detail
endpoint: a raised request/parse exception, or an HTTP response carrying
the JSON fields the code reads.  `data?` is `none` when the `data` field
is not a dict; an absent `data` field defaults to an empty dict, i.e.
`some ⟨none, none, none⟩`. -/
inductive SoraTry where
  | exc
  | resp (statusCode : Nat) (jsonCode : Option Int) (data? : Option (Option Int × Option String × Option String))
deriving DecidableEq, Repr

/-- The sora2 status map (lines 766-773): 0 submitted, 1 success,
2 failed, 3 processing, anything else (including a missing status)
unknown. -/
def soraStatusMap : Option Int → String
  | some 0 => "submitted"
  | some 1 => "success"
  | some 2 => "failed"
  | some 3 => "processing"
  | _ => "unknown"

/-- `_query_sora2_status` (lines 718-798): try the detail endpoints in
order; the first response with HTTP 200, JSON code 200 and a dict `data`
yields the mapped status; every other outcome moves on to the next
endpoint; if all endpoints fail the function returns null.  Exceptions
are caught inside the loop, so the function never throws. -/
def querySora2Go : List SoraTry → Option StatusInfo
  | [] => none
  | SoraTry.exc :: rest => querySora2Go rest
  | SoraTry.resp sc jc data? :: rest =>
    if sc = 200 then
      if jc = some 200 then
        match data? with
        | some (st, remoteUrl, errMsg) =>
          some ⟨some (soraStatusMap st), remoteUrl, errMsg⟩
        | none => querySora2Go rest
      else querySora2Go rest
    else querySora2Go rest

/-- `_query_sora2_status` including the `query_available` early exit
(lines 724-725). -/
def querySora2 (queryAvailable : Bool) (tries : List SoraTry) : Option StatusInfo :=
  if queryAvailable then querySora2Go tries else none

/-- Outcome of `_query_kling_status` (lines 800-837): an exception
(caught, yielding null) or a JSON body with its code, the raw
`task_status` string and the extracted video URL. -/
inductive KlingTry where
  | exc
  | resp (jsonCode : Option Int) (taskStatus : Option String) (videoUrl : Option String)
deriving DecidableEq, Repr

/-- `_query_kling_status`: on JSON code 0 the raw provider `task_status`
is passed through unchanged; on any other code, or on an exception, the
function returns null. -/
def queryKling : KlingTry → Option StatusInfo
  | KlingTry.exc => none
  | KlingTry.resp jc ts url =>
    if jc = some 0 then some ⟨ts, url, none⟩ else none

/-- `query_video_status` (lines 702-716): dispatch on the model name. -/
def queryVideoStatus (model : String) (queryAvailable : Bool)
    (soraTries : List SoraTry) (klingTry : KlingTry) : Option StatusInfo :=
  if model = "kling" then queryKling klingTry else querySora2 queryAvailable soraTries

/-- Timeout configuration of `wait_for_video` (constructor arguments of
`UnifiedAPIClient`). -/
structure WaitCfg where
  timeoutSec : Nat
  maxRetryOnTimeout : Nat
  retryEnabled : Bool
  queryAvailable : Bool

/-- The inner polling loop of `wait_for_video` (lines 873-926).  `poll t`
is the `query_video_status` result of the poll at iteration `t` and
`elapsed t` the wall-clock seconds elapsed at the start of iteration `t`.
Returns `some r` when the Python loop returns `r`, and `none` when the
loop is still running after `fuel` iterations.  Every return path inside
the loop body — timeout, ten consecutive failed queries, terminal
success with a URL, terminal failure — returns directly, so the outer
`while retry_count <= max_retry_on_timeout` loop never runs a second
pass. -/
def waitLoop (poll : Nat → Option StatusInfo) (elapsed : Nat → Nat) (cfg : WaitCfg) :
    Nat → Nat → Nat → Option (Option String)
  | 0, _, _ => none
  | fuel + 1, t, consec =>
    if elapsed t ≥ cfg.timeoutSec then some none
    else
      match poll t with
      | none =>
        if consec + 1 ≤ 10 then waitLoop poll elapsed cfg fuel (t + 1) (consec + 1)
        else some none
      | some info =>
        if info.status = some "success" ∨ info.status = some "succeed" then
          match info.url with
          | some u => some (some u)
          | none => waitLoop poll elapsed cfg fuel (t + 1) 0
        else if info.status = some "failed" ∨ info.status = some "fail" then
          some none
        else waitLoop poll elapsed cfg fuel (t + 1) 0

/-- `wait_for_video` (lines 841-930): the sora2 model with queries
unavailable returns null immediately; otherwise the polling loop decides
the outcome. -/
def waitForVideo (model : String) (poll : Nat → Option StatusInfo)
    (elapsed : Nat → Nat) (cfg : WaitCfg) (fuel : Nat) : Option (Option String) :=
  if model = "sora2" ∧ cfg.queryAvailable = false then some none
  else waitLoop poll elapsed cfg fuel 0 0

/-! ### Result aggregation (`src/video/performance_generator.py`, `generate`) -/

/-- A scene task handed to the worker pool by `PerformanceGenerator.generate`
(lines 164-214): an N task carries only the scene result; a director task
additionally carries the cleaned event name, the event type and the time
slot used when a new event bucket is created.  The scene result type is a
parameter: completeness of the report does not depend on its content. -/
inductive STask (α : Type) where
  | nTask (res : α)
  | dTask (eventName eventType timeSlot : String) (res : α)
deriving DecidableEq, Repr

/-- The scene result carried by a task. -/
def STask.res {α : Type} : STask α → α
  | STask.nTask r => r
  | STask.dTask _ _ _ r => r

/-- An entry of `results["r_events"]` / `results["sr_events"]`
(lines 322-329). -/
structure EventGroup (α : Type) where
  event_name : String
  event_type : String
  time_slot : String
  scenes : List α
deriving DecidableEq, Repr

/-- The in-memory `results` dictionary of `PerformanceGenerator.generate`
(lines 152-162), restricted to the three scene-result lists. -/
structure Report (α : Type) where
  n_events : List α
  r_events : List (EventGroup α)
  sr_events : List (EventGroup α)
deriving DecidableEq, Repr

/-- The search-and-append of `_add_scene_result_to_event` (lines 314-331):
find the first event with the given name and append the scene to it;
otherwise append a fresh event at the end of the list. -/
def appendToEvent {α : Type} (name etype tslot : String) (res : α) :
    List (EventGroup α) → List (EventGroup α)
  | [] => [⟨name, etype, tslot, [res]⟩]
  | e :: es =>
    if e.event_name = name then { e with scenes := e.scenes ++ [res] } :: es
    else e :: appendToEvent name etype tslot res es

/-- One completed future being recorded (lines 239-246): an N result is
appended to `n_events`; a director result goes through
`_add_scene_result_to_event`, into `r_events` when the event type is `R`
and into `sr_events` otherwise (line 312). -/
def addTask {α : Type} (r : Report α) : STask α → Report α
  | STask.nTask res => { r with n_events := r.n_events ++ [res] }
  | STask.dTask name etype tslot res =>
    if etype = "R" then
      { r with r_events := appendToEvent name etype tslot res r.r_events }
    else
      { r with sr_events := appendToEvent name etype tslot res r.sr_events }

/-- The result-collection loop of `generate` (lines 226-249) over the
completed tasks in their completion order, starting from the empty
report. -/
def runCollect {α : Type} (completed : List (STask α)) : Report α :=
  completed.foldl addTask ⟨[], [], []⟩

/-- All scene-result entries of a report, across `n_events`, the scenes
of `r_events` and the scenes of `sr_events`. -/
def allScenes {α : Type} (r : Report α) : List α :=
  r.n_events ++ (r.r_events.map EventGroup.scenes).flatten ++
    (r.sr_events.map EventGroup.scenes).flatten

/-- Number of scene-result entries of a report. -/
def totalEntries {α : Type} (r : Report α) : Nat :=
  (allScenes r).length

/-- `_save_report` (lines 397-405): the generation report file is opened
for writing and `results` is dumped into it; the previously stored
content is not read and does not influence what is stored.  The first
argument is the previously persisted report (if any), the second the
current run results; the returned value is the stored content after the
call. -/
def saveReportStored {α : Type} (_previous : Option (Report α)) (results : Report α) :
    Report α :=
  results

/-! ### Interactive-data merge (`_save_interactive_json` / `_merge_event_data`)

The event dictionaries stored in `interactive_data.json` are modelled by
records holding exactly the fields `_merge_event_data` reads or writes;
every other key is collected in an untouched `payload` string.  Missing
optional string fields and null values are both `none`; the merge guards
use Python truthiness, under which the empty string is also false. -/

/-- Python truthiness of an optional string field. -/
def truthy : Option String → Bool
  | none => false
  | some s => s ≠ ""

/-- `if new.get(f): existing[f] = new[f]` on one field. -/
def setIf (src dst : Option String) : Option String :=
  if truthy src then src else dst

/-- The `prologue` sub-dictionary (only `video_file` and `scene_title`
are merged; `text` stands for the untouched remainder). -/
structure MPrologue where
  text : String
  video_file : Option String
  scene_title : Option String
deriving DecidableEq, Repr

/-- A `branches` entry of an R event. -/
structure MBranch where
  branch_id : Option String
  video_file : Option String
  scene_title : Option String
  payload : String
deriving DecidableEq, Repr

/-- A `choices` entry of an SR phase. -/
structure MChoice where
  option_id : Option String
  video_file_part1 : Option String
  scene_title_part1 : Option String
  video_file_part2 : Option String
  scene_title_part2 : Option String
  payload : String
deriving DecidableEq, Repr

/-- A `phases` entry of an SR event. -/
structure MPhase where
  phase_number : Option Int
  video_file : Option String
  scene_title : Option String
  narrative_title : Option String
  choices : List MChoice
  payload : String
deriving DecidableEq, Repr

/-- A `resolutions` entry of an SR event. -/
structure MResolution where
  ending_id : Option String
  video_file : Option String
  scene_title : Option String
  payload : String
deriving DecidableEq, Repr

/-- An event dictionary of `interactive_data.json`.  `prologue = none`
models an absent (or empty) prologue dict. -/
structure MEvent where
  time_slot : String
  event_type : String
  video_file : Option String
  scene_name : Option String
  image_path : Option String
  prologue : Option MPrologue
  branches : List MBranch
  phases : List MPhase
  resolutions : List MResolution
  payload : String
deriving DecidableEq, Repr

/-- The keyed in-place update shared by every level of the merge: a dict
`{key(b): b for b in base}` is built once (later entries win), then for
each incoming item the matching base slot — identified by its index in
the original `base` — is merged in place; an item whose key is absent is
appended at the end when `app` is true (events, R branches) and dropped
otherwise (phases, choices, resolutions).  Appended items never enter
the dict, exactly as in the Python code. -/
def upsertStep {α β : Type} [DecidableEq β] (key : α → β) (merge : α → α → α)
    (app : Bool) (baseKeys : List β) (acc : List α) (n : α) : List α :=
  match lastIdxOf (key n) baseKeys with
  | some i =>
    match acc[i]? with
    | some x => acc.set i (merge x n)
    | none => acc
  | none => if app then acc ++ [n] else acc

/-- Fold `upsertStep` over the incoming items. -/
def upsertByKey {α β : Type} [DecidableEq β] (key : α → β) (merge : α → α → α)
    (app : Bool) (base news : List α) : List α :=
  news.foldl (upsertStep key merge app (base.map key)) base

/-- Lines 861-866 / 889-894: merge the prologue video file and scene
title; an absent prologue dict is created first. -/
def mergeProl (ep np : Option MPrologue) : Option MPrologue :=
  match np with
  | some p =>
    if truthy p.video_file then
      let e0 := ep.getD ⟨"", none, none⟩
      some { e0 with
        video_file := p.video_file,
        scene_title := if truthy p.scene_title then p.scene_title else e0.scene_title }
    else ep
  | none => ep

/-- The prologue merge applied to an event. -/
def mergePrologueInto (e : MEvent) (np : Option MPrologue) : MEvent :=
  { e with prologue := mergeProl e.prologue np }

/-- The emptiness guard shared by the keyed list merges inside
`_merge_event_data` (`if existing_xs and new_xs:`): when either list is
empty (or the key is missing, which reads as an empty list) nothing is
merged and nothing is appended. -/
def guardedUpsert {α β : Type} [DecidableEq β] (key : α → β) (merge : α → α → α)
    (app : Bool) (base news : List α) : List α :=
  if base.isEmpty || news.isEmpty then base
  else upsertByKey key merge app base news

/-- Lines 878-881: update one R branch. -/
def mergeBranch (b nb : MBranch) : MBranch :=
  { b with video_file := setIf nb.video_file b.video_file,
           scene_title := setIf nb.scene_title b.scene_title }

/-- Lines 922-929: update one SR choice. -/
def mergeChoice (c nc : MChoice) : MChoice :=
  { c with video_file_part1 := setIf nc.video_file_part1 c.video_file_part1,
           scene_title_part1 := setIf nc.scene_title_part1 c.scene_title_part1,
           video_file_part2 := setIf nc.video_file_part2 c.video_file_part2,
           scene_title_part2 := setIf nc.scene_title_part2 c.scene_title_part2 }

/-- Lines 906-929: update one SR phase, including its choices (no choice
is ever appended). -/
def mergePhase (p np : MPhase) : MPhase :=
  { p with video_file := setIf np.video_file p.video_file,
           scene_title := setIf np.scene_title p.scene_title,
           narrative_title := setIf np.narrative_title p.narrative_title,
           choices := guardedUpsert MChoice.option_id mergeChoice false p.choices np.choices }

/-- Lines 940-943: update one SR resolution. -/
def mergeResolution (r nr : MResolution) : MResolution :=
  { r with video_file := setIf nr.video_file r.video_file,
           scene_title := setIf nr.scene_title r.scene_title }

/-- `_merge_event_data` (lines 839-943): dispatch on the event type of
the incoming event; each block only runs when both the existing and the
incoming keyed list are non-empty (Python truthiness of lists); R
branches with unknown ids are appended, SR phases/choices/resolutions
with unknown keys are dropped. -/
def mergeEventData (e n : MEvent) : MEvent :=
  if n.event_type = "N" then
    { e with video_file := setIf n.video_file e.video_file,
             scene_name := setIf n.scene_name e.scene_name,
             image_path := setIf n.image_path e.image_path }
  else if n.event_type = "R" then
    { e with prologue := mergeProl e.prologue n.prologue,
             branches := guardedUpsert MBranch.branch_id mergeBranch true e.branches n.branches }
  else if n.event_type = "SR" then
    { e with prologue := mergeProl e.prologue n.prologue,
             phases := guardedUpsert MPhase.phase_number mergePhase false e.phases n.phases,
             resolutions :=
               guardedUpsert MResolution.ending_id mergeResolution false e.resolutions n.resolutions }
  else e

/-- The merge key of an event: the string `f"{time_slot}_{event_type}"`
of lines 811 and 818. -/
def eventKey (e : MEvent) : String :=
  e.time_slot ++ "_" ++ e.event_type

/-- The upsert of lines 805-829: a dict keyed by `eventKey` is built once
from the previously stored events; each newly generated event is merged
into the (last) stored event with its key, or appended when the key is
new. -/
def mergeInteractiveEvents (base news : List MEvent) : List MEvent :=
  upsertByKey eventKey mergeEventData true base news

/-! ### Status vocabulary of `query_video_status` (claim C9) -/

/-- The status vocabulary produced by the sora2 status map. -/
def allowedStatuses : List String :=
  ["submitted", "processing", "success", "failed", "unknown"]

/-- The raw provider status a kling response carries. -/
def klingRawStatus : KlingTry → Option String
  | KlingTry.exc => none
  | KlingTry.resp _ ts _ => ts

/-- Distinctness of the keys the merge uses inside one event: branch ids,
phase numbers, per-phase choice option ids and resolution ending ids are
pairwise distinct. -/
def wellFormedEvent (n : MEvent) : Prop :=
  (n.branches.map MBranch.branch_id).Nodup ∧
  (n.phases.map MPhase.phase_number).Nodup ∧
  (∀ p ∈ n.phases, (p.choices.map MChoice.option_id).Nodup) ∧
  (n.resolutions.map MResolution.ending_id).Nodup

instance (n : MEvent) : Decidable (wellFormedEvent n) := by
  unfold wellFormedEvent
  infer_instance

/-! ### Trace predicates for the scene processor claims -/

/-- Is the event a `submit_video` call. -/
def isSubmitEvent : CallEvent → Bool
  | CallEvent.submitVideo _ _ => true
  | _ => false

/-- Number of `submit_video` calls in a trace. -/
def submitCount (tr : List CallEvent) : Nat :=
  (tr.filter isSubmitEvent).length

/-- Does the trace contain a successful download to destination `p`. -/
def hasGoodDownload (p : String) (tr : List CallEvent) : Bool :=
  tr.any fun e =>
    match e with
    | CallEvent.download _ dest ok => ok && dest = p
    | _ => false

/-- Scan of the ordering property of claim C3: walking the trace in call
order, every `submit_video` call must be preceded by a `download_file`
call with destination `p` that returned true.  `seen` carries whether
such a download has already happened. -/
def noSubmitBeforeDownload (p : String) : Bool → List CallEvent → Bool
  | _, [] => true
  | seen, CallEvent.submitVideo _ _ :: rest => seen && noSubmitBeforeDownload p seen rest
  | seen, CallEvent.download _ dest ok :: rest =>
    noSubmitBeforeDownload p (seen || (ok && dest = p)) rest
  | seen, _ :: rest => noSubmitBeforeDownload p seen rest

/-- URLs produced by successful `generate_image` calls of the trace,
newest first, starting from `urls`. -/
def urlsAfter : List String → List CallEvent → List String
  | urls, [] => urls
  | urls, CallEvent.genImage (some u) :: rest => urlsAfter (u :: urls) rest
  | urls, _ :: rest => urlsAfter urls rest

/-- Scan of the invariant of claim C7: every `submit_video` call carries a
non-null reference URL that starts with `http` and was produced by an
earlier successful `generate_image` call (or is in the initial `urls`). -/
def submitsUseGeneratedUrl : List String → List CallEvent → Bool
  | _, [] => true
  | urls, CallEvent.genImage (some u) :: rest => submitsUseGeneratedUrl (u :: urls) rest
  | urls, CallEvent.genImage none :: rest => submitsUseGeneratedUrl urls rest
  | urls, CallEvent.submitVideo ref _ :: rest =>
    (match ref with
     | some u => strStartsWith u "http" && urls.contains u
     | none => false) && submitsUseGeneratedUrl urls rest
  | urls, _ :: rest => submitsUseGeneratedUrl urls rest

/-- Step of the last-successful-submission scan: a successful
`submit_video` call replaces the remembered id, everything else keeps
it. -/
def lastSubmitStep (a : Option String) (e : CallEvent) : Option String :=
  match e with
  | CallEvent.submitVideo _ (some t) => some t
  | _ => a

/-- Id of the most recent successful `submit_video` call of the trace, or
`none` when every submission failed. -/
def lastSubmitId (tr : List CallEvent) : Option String :=
  tr.foldl lastSubmitStep none

theorem lastIdxOf_mem {β : Type} [DecidableEq β] {k : β} {l : List β} {i : Nat}
    (h : lastIdxOf k l = some i) : i < l.length ∧ l[i]? = some k := by
  induction l generalizing i with
  | nil => simp [lastIdxOf] at h
  | cons a as ih =>
    simp only [lastIdxOf] at h
    cases hrec : lastIdxOf k as with
    | some j =>
      rw [hrec] at h
      cases h
      have := ih hrec
      exact ⟨by simpa using Nat.succ_lt_succ this.1, by simpa using this.2⟩
    | none =>
      rw [hrec] at h
      by_cases hak : a = k
      · simp [hak] at h
        cases h
        simp [hak]
      · simp [hak] at h

theorem lastIdxOf_append {β : Type} [DecidableEq β] (k : β) (l₁ l₂ : List β) :
    lastIdxOf k (l₁ ++ l₂) =
      match lastIdxOf k l₂ with
      | some i => some (l₁.length + i)
      | none => lastIdxOf k l₁ := by
  induction l₁ with
  | nil => cases h : lastIdxOf k l₂ <;> simp [lastIdxOf, h]
  | cons a as ih =>
    cases h : lastIdxOf k l₂ with
    | some i =>
      have ih2 : lastIdxOf k (as ++ l₂) = some (as.length + i) := by
        rw [ih, h]
      simp only [List.cons_append, lastIdxOf, List.append_eq, ih2, List.length_cons]
      congr 1
      omega
    | none =>
      have ih2 : lastIdxOf k (as ++ l₂) = lastIdxOf k as := by
        rw [ih, h]
      simp only [List.cons_append, lastIdxOf, List.append_eq, ih2]

theorem lastIdxOf_eq_none {β : Type} [DecidableEq β] {k : β} {l : List β}
    (h : k ∉ l) : lastIdxOf k l = none := by
  induction l with
  | nil => rfl
  | cons a as ih =>
    simp only [List.mem_cons, not_or] at h
    simp [lastIdxOf, ih h.2, Ne.symm h.1]

theorem lastIdxOf_isSome {β : Type} [DecidableEq β] {k : β} {l : List β}
    (h : k ∈ l) : ∃ i, lastIdxOf k l = some i := by
  induction l with
  | nil => simp at h
  | cons a as ih =>
    simp only [lastIdxOf]
    cases hrec : lastIdxOf k as with
    | some j => exact ⟨j + 1, rfl⟩
    | none =>
      rcases List.mem_cons.mp h with h | h
      · exact ⟨0, by simp [h.symm]⟩
      · rcases ih h with ⟨i, hi⟩
        rw [hi] at hrec
        cases hrec

theorem lastIdxOf_nodup {β : Type} [DecidableEq β] {k : β} {l : List β} {j : Nat}
    (hd : l.Nodup) (hj : l[j]? = some k) : lastIdxOf k l = some j := by
  induction l generalizing j with
  | nil => simp at hj
  | cons a as ih =>
    rcases List.nodup_cons.mp hd with ⟨ha, has⟩
    cases j with
    | zero =>
      simp at hj
      have : lastIdxOf k as = none := lastIdxOf_eq_none (by rwa [hj] at ha)
      simp [lastIdxOf, this, hj]
    | succ j =>
      simp only [List.getElem?_cons_succ] at hj
      simp [lastIdxOf, ih has hj]

theorem List.set_self_of_getElem? {α : Type} {l : List α} {i : Nat} {a : α}
    (h : l[i]? = some a) : l.set i a = l := by
  induction l generalizing i with
  | nil => simp at h
  | cons x xs ih =>
    cases i with
    | zero => simp at h; simp [h]
    | succ i => simp at h; simp [List.set_cons_succ, ih h]

theorem soraStatusMap_mem (st : Option Int) : soraStatusMap st ∈ allowedStatuses := by
  unfold soraStatusMap
  split <;> simp [allowedStatuses]

theorem querySora2Go_status (tries : List SoraTry) :
    ∀ info, querySora2Go tries = some info → ∃ s ∈ allowedStatuses, info.status = some s := by
  induction tries with
  | nil => intro info h; simp [querySora2Go] at h
  | cons t rest ih =>
    intro info h
    cases t with
    | exc => exact ih info h
    | resp sc jc data? =>
      simp only [querySora2Go] at h
      by_cases hsc : sc = 200
      · rw [if_pos hsc] at h
        by_cases hjc : jc = some 200
        · rw [if_pos hjc] at h
          match data? with
          | some (st, ru, em) =>
            cases h
            exact ⟨soraStatusMap st, soraStatusMap_mem st, rfl⟩
          | none => exact ih info h
        · rw [if_neg hjc] at h; exact ih info h
      · rw [if_neg hsc] at h; exact ih info h

/-- C9 (corrected, counterexample): the claim says the status field of a
non-null `query_video_status` result is always one of `submitted`,
`processing`, `success`, `failed`, `unknown`.  On the kling path the raw
provider status is passed through: a kling success response reports
`succeed`, which is outside that vocabulary. -/
theorem query_status_vocabulary_cex :
    queryVideoStatus "kling" true [] (KlingTry.resp (some 0) (some "succeed") none) =
      some ⟨some "succeed", none, none⟩ ∧
    some "succeed" ∉ allowedStatuses.map Option.some := by
  refine ⟨rfl, ?_⟩
  decide

/-- C9 (corrected, amended): `query_video_status` never throws: for every
input it returns null (transport errors, non-200 responses, parse
failures, unknown models with queries unavailable) or a status dict.  On
the sora2 path the status field is always one of `submitted`,
`processing`, `success`, `failed`, `unknown`; on the kling path the
provider-reported `task_status` (possibly null) is passed through
unchanged. -/
theorem query_status_vocabulary (model : String) (qa : Bool)
    (tries : List SoraTry) (kt : KlingTry) :
    match queryVideoStatus model qa tries kt with
    | none => True
    | some info =>
      if model = "kling" then info.status = klingRawStatus kt
      else ∃ s ∈ allowedStatuses, info.status = some s := by
  unfold queryVideoStatus
  by_cases hm : model = "kling"
  · rw [if_pos hm]
    cases kt with
    | exc => simp [queryKling]
    | resp jc ts url =>
      by_cases hjc : jc = some 0
      · simp [queryKling, hjc, hm, klingRawStatus]
      · simp [queryKling, hjc]
  · rw [if_neg hm]
    unfold querySora2
    by_cases hqa : qa
    · rw [if_pos hqa]
      cases hq : querySora2Go tries with
      | none => simp
      | some info => simpa [hm] using querySora2Go_status tries info hq
    · simp [hqa]

/-! ### Batch completeness of the result collection (claim C1) -/

theorem coe_perm {α : Type} {l₁ l₂ : List α}
    (h : (l₁ : Multiset α) = (l₂ : Multiset α)) : l₁ ~ l₂ :=
  Multiset.coe_eq_coe.mp h

theorem appendToEvent_flatten {α : Type} (name etype tslot : String) (res : α)
    (l : List (EventGroup α)) :
    ((appendToEvent name etype tslot res l).map EventGroup.scenes).flatten ~
      (l.map EventGroup.scenes).flatten ++ [res] := by
  induction l with
  | nil => simp [appendToEvent]
  | cons e es ih =>
    simp only [appendToEvent]
    by_cases he : e.event_name = name
    · rw [if_pos he]
      simp only [List.map_cons, List.flatten_cons]
      refine coe_perm ?_
      simp only [← Multiset.coe_add]
      abel
    · rw [if_neg he]
      simp only [List.map_cons, List.flatten_cons]
      refine coe_perm ?_
      have ihm := Multiset.coe_eq_coe.mpr ih
      simp only [← Multiset.coe_add] at ihm ⊢
      rw [ihm]
      abel

theorem allScenes_addTask {α : Type} (r : Report α) (t : STask α) :
    allScenes (addTask r t) ~ allScenes r ++ [t.res] := by
  cases t with
  | nTask res =>
    refine coe_perm ?_
    unfold allScenes addTask STask.res
    dsimp only
    simp only [← Multiset.coe_add]
    abel
  | dTask name etype tslot res =>
    simp only [addTask]
    by_cases hR : etype = "R"
    · rw [if_pos hR]
      refine coe_perm ?_
      have hf := Multiset.coe_eq_coe.mpr
        (appendToEvent_flatten name etype tslot res r.r_events)
      unfold allScenes STask.res
      dsimp only
      simp only [← Multiset.coe_add] at hf ⊢
      rw [hf]
      abel
    · rw [if_neg hR]
      refine coe_perm ?_
      have hf := Multiset.coe_eq_coe.mpr
        (appendToEvent_flatten name etype tslot res r.sr_events)
      unfold allScenes STask.res
      dsimp only
      simp only [← Multiset.coe_add] at hf ⊢
      rw [hf]
      abel

theorem allScenes_foldl {α : Type} (l : List (STask α)) (r : Report α) :
    allScenes (l.foldl addTask r) ~ allScenes r ++ l.map STask.res := by
  induction l generalizing r with
  | nil => simp
  | cons t ts ih =>
    calc allScenes ((t :: ts).foldl addTask r)
        = allScenes (ts.foldl addTask (addTask r t)) := rfl
      _ ~ allScenes (addTask r t) ++ ts.map STask.res := ih (addTask r t)
      _ ~ (allScenes r ++ [t.res]) ++ ts.map STask.res :=
          (allScenes_addTask r t).append_right _
      _ = allScenes r ++ (t :: ts).map STask.res := by simp

theorem allScenes_runCollect {α : Type} (l : List (STask α)) :
    allScenes (runCollect l) ~ l.map STask.res := by
  have := allScenes_foldl l (⟨[], [], []⟩ : Report α)
  simpa [runCollect, allScenes] using this

/-- C1 (confirmed): for every batch of `N` scene-task descriptors, the
collected report of `PerformanceGenerator.generate` contains exactly `N`
scene-result entries across `n_events`, `r_events` scenes and `sr_events`
scenes, for any completion order (any permutation of the batch); and the
result of every requested task — with whatever artifacts it achieved —
appears in the report. -/
theorem run_batch_completeness {α : Type} (tasks completed : List (STask α))
    (h : completed ~ tasks) :
    totalEntries (runCollect completed) = tasks.length ∧
    ∀ t ∈ tasks, STask.res t ∈ allScenes (runCollect completed) := by
  constructor
  · calc totalEntries (runCollect completed)
        = (allScenes (runCollect completed)).length := rfl
      _ = (completed.map STask.res).length := (allScenes_runCollect completed).length_eq
      _ = completed.length := List.length_map _ _
      _ = tasks.length := h.length_eq
  · intro t ht
    have h1 : STask.res t ∈ tasks.map STask.res := List.mem_map_of_mem _ ht
    have h2 : STask.res t ∈ completed.map STask.res := ((h.map STask.res).mem_iff).mpr h1
    exact ((allScenes_runCollect completed).mem_iff).mpr h2

/-- Witness for C1 at a concrete three-task batch completed in reversed
order. -/
theorem run_batch_completeness_witness :
    totalEntries (runCollect [STask.dTask "ev" "SR" "s1" (3 : Nat),
      STask.dTask "ev" "R" "s1" 2, STask.nTask 1]) = 3 ∧
    ∀ t ∈ [STask.nTask (1 : Nat), STask.dTask "ev" "R" "s1" 2,
      STask.dTask "ev" "SR" "s1" 3],
      STask.res t ∈ allScenes (runCollect [STask.dTask "ev" "SR" "s1" (3 : Nat),
        STask.dTask "ev" "R" "s1" 2, STask.nTask 1]) :=
  run_batch_completeness
    [STask.nTask 1, STask.dTask "ev" "R" "s1" 2, STask.dTask "ev" "SR" "s1" 3]
    [STask.dTask "ev" "SR" "s1" 3, STask.dTask "ev" "R" "s1" 2, STask.nTask 1]
    (by decide)

/-! ### Generic facts about the keyed upsert -/

theorem upsertStep_eq_set {α β : Type} [DecidableEq β] {key : α → β}
    {merge : α → α → α} {app : Bool} {bk : List β} {acc : List α} {n : α}
    {i : Nat} {x : α}
    (h1 : lastIdxOf (key n) bk = some i) (h2 : acc[i]? = some x) :
    upsertStep key merge app bk acc n = acc.set i (merge x n) := by
  unfold upsertStep
  rw [h1]
  simp only [h2]

theorem upsertStep_eq_oob {α β : Type} [DecidableEq β] {key : α → β}
    {merge : α → α → α} {app : Bool} {bk : List β} {acc : List α} {n : α}
    {i : Nat}
    (h1 : lastIdxOf (key n) bk = some i) (h2 : acc[i]? = none) :
    upsertStep key merge app bk acc n = acc := by
  unfold upsertStep
  rw [h1]
  simp only [h2]

theorem upsertStep_eq_append {α β : Type} [DecidableEq β] {key : α → β}
    {merge : α → α → α} {bk : List β} {acc : List α} {n : α}
    (h1 : lastIdxOf (key n) bk = none) :
    upsertStep key merge true bk acc n = acc ++ [n] := by
  unfold upsertStep
  rw [h1]
  simp

theorem upsertStep_eq_skip {α β : Type} [DecidableEq β] {key : α → β}
    {merge : α → α → α} {bk : List β} {acc : List α} {n : α}
    (h1 : lastIdxOf (key n) bk = none) :
    upsertStep key merge false bk acc n = acc := by
  unfold upsertStep
  rw [h1]
  simp

theorem upsertStep_length_le {α β : Type} [DecidableEq β] (key : α → β)
    (merge : α → α → α) (app : Bool) (bk : List β) (acc : List α) (n : α) :
    acc.length ≤ (upsertStep key merge app bk acc n).length := by
  cases hl : lastIdxOf (key n) bk with
  | some i =>
    cases hx : acc[i]? with
    | some x => rw [upsertStep_eq_set hl hx]; simp
    | none => rw [upsertStep_eq_oob hl hx]
  | none =>
    cases app with
    | false => rw [upsertStep_eq_skip hl]
    | true => rw [upsertStep_eq_append hl]; simp

theorem upsertFold_length_le {α β : Type} [DecidableEq β] (key : α → β)
    (merge : α → α → α) (app : Bool) (bk : List β) (ns acc : List α) :
    acc.length ≤ (ns.foldl (upsertStep key merge app bk) acc).length := by
  induction ns generalizing acc with
  | nil => simp
  | cons n ns ih =>
    rw [List.foldl_cons]
    exact le_trans (upsertStep_length_le key merge app bk acc n) (ih _)

theorem upsertStep_getElem?_stable {α β : Type} [DecidableEq β] (key : α → β)
    (merge : α → α → α) (app : Bool) (bk : List β) (acc : List α) (n : α) (i : Nat)
    (hi : i < acc.length) (h : lastIdxOf (key n) bk ≠ some i) :
    (upsertStep key merge app bk acc n)[i]? = acc[i]? := by
  cases hl : lastIdxOf (key n) bk with
  | some j =>
    cases hx : acc[j]? with
    | some x =>
      rw [upsertStep_eq_set hl hx]
      exact List.getElem?_set_ne (fun e => h (by rw [hl, e]))
    | none => rw [upsertStep_eq_oob hl hx]
  | none =>
    cases app with
    | false => rw [upsertStep_eq_skip hl]
    | true =>
      rw [upsertStep_eq_append hl]
      simp [List.getElem?_append, hi]

theorem upsertFold_getElem?_stable {α β : Type} [DecidableEq β] (key : α → β)
    (merge : α → α → α) (app : Bool) (bk : List β) (ns acc : List α) (i : Nat)
    (hi : i < acc.length) (h : ∀ n ∈ ns, lastIdxOf (key n) bk ≠ some i) :
    (ns.foldl (upsertStep key merge app bk) acc)[i]? = acc[i]? := by
  induction ns generalizing acc with
  | nil => rfl
  | cons n ns ih =>
    rw [List.foldl_cons]
    have hi2 : i < (upsertStep key merge app bk acc n).length :=
      lt_of_lt_of_le hi (upsertStep_length_le key merge app bk acc n)
    rw [ih _ hi2 (fun m hm => h m (List.mem_cons_of_mem n hm))]
    exact upsertStep_getElem?_stable key merge app bk acc n i hi
      (h n (List.mem_cons_self n ns))

theorem upsertFold_getElem?_hit {α β : Type} [DecidableEq β] (key : α → β)
    (merge : α → α → α) (app : Bool) (bk : List β) (l1 l2 acc : List α) (n0 : α)
    (i : Nat) (hi : i < acc.length) (h0 : lastIdxOf (key n0) bk = some i)
    (h1 : ∀ n ∈ l1, lastIdxOf (key n) bk ≠ some i)
    (h2 : ∀ n ∈ l2, lastIdxOf (key n) bk ≠ some i) :
    ((l1 ++ n0 :: l2).foldl (upsertStep key merge app bk) acc)[i]? =
      acc[i]?.map (fun x => merge x n0) := by
  rw [List.foldl_append]
  have e1 : (l1.foldl (upsertStep key merge app bk) acc)[i]? = acc[i]? :=
    upsertFold_getElem?_stable key merge app bk l1 acc i hi h1
  have hi1 : i < (l1.foldl (upsertStep key merge app bk) acc).length :=
    lt_of_lt_of_le hi (upsertFold_length_le key merge app bk l1 acc)
  rw [List.foldl_cons]
  obtain ⟨x, hx⟩ : ∃ x, acc[i]? = some x :=
    ⟨acc[i], List.getElem?_eq_getElem hi⟩
  have hsc : (l1.foldl (upsertStep key merge app bk) acc)[i]? = some x := e1.trans hx
  rw [upsertStep_eq_set h0 hsc]
  have hi3 : i < ((l1.foldl (upsertStep key merge app bk) acc).set i (merge x n0)).length := by
    simpa using hi1
  rw [upsertFold_getElem?_stable key merge app bk l2 _ i hi3 h2]
  rw [List.getElem?_set_self hi1, hx]
  rfl

theorem upsertFold_map_key {α β : Type} [DecidableEq β] (key : α → β)
    (merge : α → α → α) (app : Bool) (bk : List β) (ns : List α)
    (hpres : ∀ x n, n ∈ ns → key (merge x n) = key x) (acc : List α) :
    (ns.foldl (upsertStep key merge app bk) acc).map key =
      acc.map key ++
        (if app then (ns.filter (fun n => (lastIdxOf (key n) bk).isNone)).map key
         else []) := by
  induction ns generalizing acc with
  | nil => cases app <;> simp
  | cons n ns ih =>
    have hpres2 : ∀ x m, m ∈ ns → key (merge x m) = key x :=
      fun x m hm => hpres x m (List.mem_cons_of_mem n hm)
    rw [List.foldl_cons, ih hpres2]
    have hstep : (upsertStep key merge app bk acc n).map key =
        acc.map key ++
          (if (lastIdxOf (key n) bk).isNone && app then [key n] else []) := by
      cases hl : lastIdxOf (key n) bk with
      | some j =>
        cases hx : acc[j]? with
        | some x =>
          rw [upsertStep_eq_set hl hx, List.map_set, hpres x n (List.mem_cons_self n ns)]
          rw [List.set_self_of_getElem? (by rw [List.getElem?_map, hx]; rfl)]
          simp [hl]
        | none =>
          rw [upsertStep_eq_oob hl hx]
          simp [hl]
      | none =>
        cases app with
        | false => rw [upsertStep_eq_skip hl]; simp [hl]
        | true => rw [upsertStep_eq_append hl]; simp [hl]
    rw [hstep]
    cases app with
    | false => simp
    | true =>
      cases hl : lastIdxOf (key n) bk with
      | some j => simp [List.filter_cons, hl]
      | none => simp [List.filter_cons, hl]

theorem upsertFold_drop {α β : Type} [DecidableEq β] (key : α → β)
    (merge : α → α → α) (bk : List β) (ns : List α) (acc : List α)
    (hK : bk.length ≤ acc.length) :
    (ns.foldl (upsertStep key merge true bk) acc).drop acc.length =
      ns.filter (fun n => (lastIdxOf (key n) bk).isNone) := by
  induction ns generalizing acc with
  | nil => simp
  | cons n ns ih =>
    rw [List.foldl_cons]
    cases hl : lastIdxOf (key n) bk with
    | some j =>
      have hj : j < bk.length := (lastIdxOf_mem hl).1
      have hja : j < acc.length := lt_of_lt_of_le hj hK
      obtain ⟨x, hx⟩ : ∃ x, acc[j]? = some x := ⟨acc[j], List.getElem?_eq_getElem hja⟩
      rw [upsertStep_eq_set hl hx]
      have hlen : (acc.set j (merge x n)).length = acc.length := List.length_set acc j _
      have hrec := ih (acc.set j (merge x n)) (by rw [hlen]; exact hK)
      rw [hlen] at hrec
      rw [hrec]
      simp [List.filter_cons, hl]
    | none =>
      rw [upsertStep_eq_append hl]
      have hK2 : bk.length ≤ (acc ++ [n]).length := by
        simp
        omega
      have htail := ih (acc ++ [n]) hK2
      have hstable : (ns.foldl (upsertStep key merge true bk) (acc ++ [n]))[acc.length]? =
          some n := by
        have hlt : acc.length < (acc ++ [n]).length := by simp
        rw [upsertFold_getElem?_stable key merge true bk ns (acc ++ [n]) acc.length hlt
          (fun m _ hsome => absurd ((lastIdxOf_mem hsome).1) (by omega))]
        exact List.getElem?_concat_length acc n
      have hlt2 : acc.length <
          (ns.foldl (upsertStep key merge true bk) (acc ++ [n])).length := by
        have := upsertFold_length_le key merge true bk ns (acc ++ [n])
        simp at this
        omega
      rw [List.drop_eq_getElem_cons hlt2]
      have hval : (ns.foldl (upsertStep key merge true bk) (acc ++ [n]))[acc.length] = n := by
        have h2 := List.getElem?_eq_getElem hlt2
        rw [hstable] at h2
        exact (Option.some.injEq _ _).mp h2.symm
      rw [hval]
      have hlen2 : (acc ++ [n]).length = acc.length + 1 := by simp
      rw [← hlen2, htail]
      simp [List.filter_cons, hl]

theorem nodup_middle_split {β : Type} {xs ys : List β} {y : β}
    (h : (xs ++ y :: ys).Nodup) : y ∉ xs ∧ y ∉ ys := by
  have h2 := List.nodup_middle.mp h
  rcases List.nodup_cons.mp h2 with ⟨hy, _⟩
  simp only [List.mem_append, not_or] at hy
  exact hy

theorem upsertFold_id {α β : Type} [DecidableEq β] (key : α → β)
    (merge : α → α → α) (app : Bool) (bk : List β) (ns acc : List α)
    (h : ∀ n ∈ ns, upsertStep key merge app bk acc n = acc) :
    ns.foldl (upsertStep key merge app bk) acc = acc := by
  induction ns with
  | nil => rfl
  | cons n ns ih =>
    rw [List.foldl_cons, h n (List.mem_cons_self n ns)]
    exact ih (fun m hm => h m (List.mem_cons_of_mem n hm))

/-- The keyed upsert is idempotent: running the same batch of incoming
items twice gives the same list as running it once, provided the incoming
keys are pairwise distinct and the item-level merge preserves keys, is
idempotent over a previous merge of the same item and fixes an item
merged with itself. -/
theorem upsertByKey_idem {α β : Type} [DecidableEq β] (key : α → β)
    (merge : α → α → α) (app : Bool) (base news : List α)
    (hnd : (news.map key).Nodup)
    (hpres : ∀ x n, n ∈ news → key (merge x n) = key x)
    (hmm2 : ∀ x n, n ∈ news → merge (merge x n) n = merge x n)
    (hself : ∀ n, n ∈ news → merge n n = n) :
    upsertByKey key merge app (upsertByKey key merge app base news) news =
      upsertByKey key merge app base news := by
  unfold upsertByKey
  have hmap : (news.foldl (upsertStep key merge app (base.map key)) base).map key =
      base.map key ++
        (if app then
          (news.filter (fun n => (lastIdxOf (key n) (base.map key)).isNone)).map key
        else []) :=
    upsertFold_map_key key merge app (base.map key) news hpres base
  apply upsertFold_id
  intro n hn
  cases hl : lastIdxOf (key n) (base.map key) with
  | some i =>
    have hiK : i < (base.map key).length := (lastIdxOf_mem hl).1
    have hKi : (base.map key)[i]? = some (key n) := (lastIdxOf_mem hl).2
    have hib : i < base.length := by simpa using hiK
    have hnotA : lastIdxOf (key n)
        (if app then
          (news.filter (fun n => (lastIdxOf (key n) (base.map key)).isNone)).map key
        else []) = none := by
      cases app with
      | false => rfl
      | true =>
        simp only [if_true]
        apply lastIdxOf_eq_none
        intro hmem
        rcases List.mem_map.mp hmem with ⟨m, hmf, hkey⟩
        have hpredm := List.of_mem_filter hmf
        simp only [hkey] at hpredm
        rw [hl] at hpredm
        simp at hpredm
    have hlB : lastIdxOf (key n)
        ((news.foldl (upsertStep key merge app (base.map key)) base).map key) = some i := by
      rw [hmap, lastIdxOf_append, hnotA, hl]
    obtain ⟨l1, l2, hsplit⟩ := List.append_of_mem hn
    have hmid : key n ∉ l1.map key ∧ key n ∉ l2.map key := by
      apply nodup_middle_split
      have : news.map key = l1.map key ++ key n :: l2.map key := by
        rw [hsplit]; simp
      rwa [this] at hnd
    have h1 : ∀ m ∈ l1, lastIdxOf (key m) (base.map key) ≠ some i := by
      intro m hm heq
      have hKm := (lastIdxOf_mem heq).2
      rw [hKi] at hKm
      have hkk : key m = key n := by
        have := Option.some.injEq (key n) (key m) ▸ hKm
        exact (Option.some.inj hKm).symm
      exact hmid.1 (hkk ▸ List.mem_map_of_mem key hm)
    have h2 : ∀ m ∈ l2, lastIdxOf (key m) (base.map key) ≠ some i := by
      intro m hm heq
      have hKm := (lastIdxOf_mem heq).2
      rw [hKi] at hKm
      have hkk : key m = key n := (Option.some.inj hKm).symm
      exact hmid.2 (hkk ▸ List.mem_map_of_mem key hm)
    have hB_i : (news.foldl (upsertStep key merge app (base.map key)) base)[i]? =
        some (merge base[i] n) := by
      rw [hsplit]
      rw [upsertFold_getElem?_hit key merge app (base.map key) l1 l2 base n i hib hl h1 h2]
      rw [List.getElem?_eq_getElem hib]
      rfl
    rw [upsertStep_eq_set hlB hB_i, hmm2 base[i] n hn]
    exact List.set_self_of_getElem? hB_i
  | none =>
    cases app with
    | false =>
      have hlB : lastIdxOf (key n)
          ((news.foldl (upsertStep key merge false (base.map key)) base).map key) = none := by
        rw [hmap]
        simpa using hl
      rw [upsertStep_eq_skip hlB]
    | true =>
      have hf : n ∈ news.filter (fun m => (lastIdxOf (key m) (base.map key)).isNone) :=
        List.mem_filter.mpr ⟨hn, by rw [hl]; rfl⟩
      have hAnd : ((news.filter
          (fun m => (lastIdxOf (key m) (base.map key)).isNone)).map key).Nodup :=
        List.Nodup.sublist (List.Sublist.map key (List.filter_sublist news)) hnd
      obtain ⟨j, hj⟩ := List.getElem?_of_mem hf
      have hAj : ((news.filter
          (fun m => (lastIdxOf (key m) (base.map key)).isNone)).map key)[j]? =
          some (key n) := by
        rw [List.getElem?_map, hj]
        rfl
      have hlast := lastIdxOf_nodup hAnd hAj
      have hlB : lastIdxOf (key n)
          ((news.foldl (upsertStep key merge true (base.map key)) base).map key) =
          some (base.length + j) := by
        rw [hmap]
        simp only [if_true]
        rw [lastIdxOf_append, hlast]
        simp
      have hdrop := upsertFold_drop key merge (base.map key) news base (by simp)
      have hBj : (news.foldl (upsertStep key merge true (base.map key)) base)[base.length + j]? =
          some n := by
        rw [← List.getElem?_drop, hdrop, hj]
      rw [upsertStep_eq_set hlB hBj, hself n hn]
      exact List.set_self_of_getElem? hBj

/-! ### Idempotency of the interactive-data merge (claim C4) -/

theorem setIf_idem (s d : Option String) : setIf s (setIf s d) = setIf s d := by
  unfold setIf
  by_cases h : truthy s <;> simp [h]

theorem setIf_self (s : Option String) : setIf s s = s := by
  unfold setIf
  split <;> rfl

theorem upsertByKey_length_le {α β : Type} [DecidableEq β] (key : α → β)
    (merge : α → α → α) (app : Bool) (base news : List α) :
    base.length ≤ (upsertByKey key merge app base news).length :=
  upsertFold_length_le key merge app (base.map key) news base

theorem upsertByKey_self {α β : Type} [DecidableEq β] (key : α → β)
    (merge : α → α → α) (app : Bool) (l : List α)
    (hnd : (l.map key).Nodup) (hself : ∀ x ∈ l, merge x x = x) :
    upsertByKey key merge app l l = l := by
  unfold upsertByKey
  apply upsertFold_id
  intro n hn
  obtain ⟨j, hj⟩ := List.getElem?_of_mem hn
  have hKj : (l.map key)[j]? = some (key n) := by
    rw [List.getElem?_map, hj]
    rfl
  have hlast := lastIdxOf_nodup hnd hKj
  rw [upsertStep_eq_set hlast hj, hself n hn]
  exact List.set_self_of_getElem? hj

theorem guardedUpsert_idem {α β : Type} [DecidableEq β] (key : α → β)
    (merge : α → α → α) (app : Bool) (base news : List α)
    (hnd : (news.map key).Nodup)
    (hpres : ∀ x n, n ∈ news → key (merge x n) = key x)
    (hmm2 : ∀ x n, n ∈ news → merge (merge x n) n = merge x n)
    (hself : ∀ n, n ∈ news → merge n n = n) :
    guardedUpsert key merge app (guardedUpsert key merge app base news) news =
      guardedUpsert key merge app base news := by
  by_cases hb : base.isEmpty
  · unfold guardedUpsert
    simp [hb]
  · by_cases hn : news.isEmpty
    · unfold guardedUpsert
      simp [hn]
    · have hinner : guardedUpsert key merge app base news =
          upsertByKey key merge app base news := by
        unfold guardedUpsert
        rw [if_neg (by simp [hb, hn])]
      rw [hinner]
      unfold guardedUpsert
      have hlen := upsertByKey_length_le key merge app base news
      have hne : ¬(upsertByKey key merge app base news).isEmpty = true := by
        cases hu : upsertByKey key merge app base news with
        | nil =>
          rw [hu] at hlen
          simp at hlen
          cases base with
          | nil => simp at hb
          | cons a l => simp at hlen
        | cons a l => simp
      rw [if_neg (by simp [hne, hn])]
      exact upsertByKey_idem key merge app base news hnd hpres hmm2 hself

theorem guardedUpsert_self {α β : Type} [DecidableEq β] (key : α → β)
    (merge : α → α → α) (app : Bool) (l : List α)
    (hnd : (l.map key).Nodup) (hself : ∀ x ∈ l, merge x x = x) :
    guardedUpsert key merge app l l = l := by
  unfold guardedUpsert
  by_cases hl : l.isEmpty
  · simp [hl]
  · rw [if_neg (by simp [hl])]
    exact upsertByKey_self key merge app l hnd hself

theorem mergeBranch_key (x n : MBranch) : (mergeBranch x n).branch_id = x.branch_id := rfl

theorem mergeBranch_idem (x n : MBranch) :
    mergeBranch (mergeBranch x n) n = mergeBranch x n := by
  simp [mergeBranch, setIf_idem]

theorem mergeBranch_self (x : MBranch) : mergeBranch x x = x := by
  simp [mergeBranch, setIf_self]

theorem mergeChoice_key (x n : MChoice) : (mergeChoice x n).option_id = x.option_id := rfl

theorem mergeChoice_idem (x n : MChoice) :
    mergeChoice (mergeChoice x n) n = mergeChoice x n := by
  simp [mergeChoice, setIf_idem]

theorem mergeChoice_self (x : MChoice) : mergeChoice x x = x := by
  simp [mergeChoice, setIf_self]

theorem mergeResolution_key (x n : MResolution) :
    (mergeResolution x n).ending_id = x.ending_id := rfl

theorem mergeResolution_idem (x n : MResolution) :
    mergeResolution (mergeResolution x n) n = mergeResolution x n := by
  simp [mergeResolution, setIf_idem]

theorem mergeResolution_self (x : MResolution) : mergeResolution x x = x := by
  simp [mergeResolution, setIf_self]

theorem mergePhase_key (x n : MPhase) : (mergePhase x n).phase_number = x.phase_number := rfl

theorem mergePhase_idem (x n : MPhase)
    (hnd : (n.choices.map MChoice.option_id).Nodup) :
    mergePhase (mergePhase x n) n = mergePhase x n := by
  unfold mergePhase
  simp only [setIf_idem]
  congr 1
  exact guardedUpsert_idem MChoice.option_id mergeChoice false x.choices n.choices hnd
    (fun a b _ => mergeChoice_key a b)
    (fun a b _ => mergeChoice_idem a b)
    (fun b _ => mergeChoice_self b)

theorem mergePhase_self (x : MPhase)
    (hnd : (x.choices.map MChoice.option_id).Nodup) :
    mergePhase x x = x := by
  unfold mergePhase
  simp only [setIf_self]
  rw [guardedUpsert_self MChoice.option_id mergeChoice false x.choices hnd
    (fun c _ => mergeChoice_self c)]

theorem mergeProl_idem (ep np : Option MPrologue) :
    mergeProl (mergeProl ep np) np = mergeProl ep np := by
  cases np with
  | none => rfl
  | some p =>
    unfold mergeProl
    by_cases hv : truthy p.video_file
    · simp only [if_pos hv]
      by_cases hs : truthy p.scene_title <;> simp [hs]
    · simp [hv]

theorem mergeProl_self (p : Option MPrologue) : mergeProl p p = p := by
  cases p with
  | none => rfl
  | some q =>
    unfold mergeProl
    by_cases hv : truthy q.video_file
    · simp only [if_pos hv, Option.getD_some]
      by_cases hs : truthy q.scene_title <;> simp [hs]
    · simp [hv]

theorem mergeEventData_key (e n : MEvent) :
    eventKey (mergeEventData e n) = eventKey e := by
  unfold mergeEventData eventKey
  split
  · rfl
  · split
    · rfl
    · split
      · rfl
      · rfl

theorem mergeEventData_idem (e n : MEvent) (hwf : wellFormedEvent n) :
    mergeEventData (mergeEventData e n) n = mergeEventData e n := by
  obtain ⟨hbr, hph, hch, hres⟩ := hwf
  unfold mergeEventData
  by_cases hN : n.event_type = "N"
  · simp only [if_pos hN, setIf_idem]
  · by_cases hR : n.event_type = "R"
    · simp only [if_neg hN, if_pos hR]
      simp only [mergeProl_idem]
      congr 1
      exact guardedUpsert_idem MBranch.branch_id mergeBranch true e.branches n.branches hbr
        (fun a b _ => mergeBranch_key a b)
        (fun a b _ => mergeBranch_idem a b)
        (fun b _ => mergeBranch_self b)
    · by_cases hSR : n.event_type = "SR"
      · simp only [if_neg hN, if_neg hR, if_pos hSR]
        simp only [mergeProl_idem]
        congr 1
        · exact guardedUpsert_idem MPhase.phase_number mergePhase false e.phases n.phases hph
            (fun a b _ => mergePhase_key a b)
            (fun a b hb => mergePhase_idem a b (hch b hb))
            (fun b hb => mergePhase_self b (hch b hb))
        · exact guardedUpsert_idem MResolution.ending_id mergeResolution false
            e.resolutions n.resolutions hres
            (fun a b _ => mergeResolution_key a b)
            (fun a b _ => mergeResolution_idem a b)
            (fun b _ => mergeResolution_self b)
      · simp [hN, hR, hSR]

theorem mergeEventData_self (n : MEvent) (hwf : wellFormedEvent n) :
    mergeEventData n n = n := by
  obtain ⟨hbr, hph, hch, hres⟩ := hwf
  unfold mergeEventData
  by_cases hN : n.event_type = "N"
  · simp only [if_pos hN, setIf_self]
  · by_cases hR : n.event_type = "R"
    · simp only [if_neg hN, if_pos hR, mergeProl_self]
      rw [guardedUpsert_self MBranch.branch_id mergeBranch true n.branches hbr
        (fun b _ => mergeBranch_self b)]
    · by_cases hSR : n.event_type = "SR"
      · simp only [if_neg hN, if_neg hR, if_pos hSR, mergeProl_self]
        rw [guardedUpsert_self MPhase.phase_number mergePhase false n.phases hph
          (fun p hp => mergePhase_self p (hch p hp))]
        rw [guardedUpsert_self MResolution.ending_id mergeResolution false n.resolutions hres
          (fun r _ => mergeResolution_self r)]
      · simp [hN, hR, hSR]

/-- C4 (corrected, counterexample): the incoming batch holds two N events
with the same `(time_slot, event_type)` key, the first with a video file
and the second without.  Merging once into an empty report appends both;
merging a second time folds the first video file into the second entry,
so merging twice differs from merging once. -/
theorem merge_idempotent_cex :
    mergeInteractiveEvents
      (mergeInteractiveEvents []
        [⟨"09:00-11:00", "N", some "a.mp4", none, none, none, [], [], [], ""⟩,
         ⟨"09:00-11:00", "N", none, none, none, none, [], [], [], ""⟩])
      [⟨"09:00-11:00", "N", some "a.mp4", none, none, none, [], [], [], ""⟩,
       ⟨"09:00-11:00", "N", none, none, none, none, [], [], [], ""⟩] ≠
    mergeInteractiveEvents []
      [⟨"09:00-11:00", "N", some "a.mp4", none, none, none, [], [], [], ""⟩,
       ⟨"09:00-11:00", "N", none, none, none, none, [], [], [], ""⟩] := by
  decide

/-- C4 (corrected, amended): the merge of `_save_interactive_json` /
`_merge_event_data` is idempotent — merging the same completed sub-batch
into a previously persisted interactive report twice yields a result
structurally identical to merging it once — provided the sub-batch events
carry pairwise distinct `(time_slot, event_type)` keys and each event has
pairwise distinct branch ids, phase numbers, per-phase option ids and
ending ids.  (The stored base report is unrestricted.) -/
theorem merge_idempotent (base news : List MEvent)
    (hnd : (news.map eventKey).Nodup)
    (hwf : ∀ n ∈ news, wellFormedEvent n) :
    mergeInteractiveEvents (mergeInteractiveEvents base news) news =
      mergeInteractiveEvents base news :=
  upsertByKey_idem eventKey mergeEventData true base news hnd
    (fun x n _ => mergeEventData_key x n)
    (fun x n hn => mergeEventData_idem x n (hwf n hn))
    (fun n hn => mergeEventData_self n (hwf n hn))

/-- Witness for C4 at a concrete base and sub-batch: one stored R event,
one incoming N event with the same time slot and one incoming R event with
two branches. -/
theorem merge_idempotent_witness :
    mergeInteractiveEvents
      (mergeInteractiveEvents
        [⟨"09:00-11:00", "R", none, none, none, none,
          [⟨some "A", none, none, "old"⟩], [], [], "stored"⟩]
        [⟨"09:00-11:00", "N", some "n.mp4", none, none, none, [], [], [], ""⟩,
         ⟨"09:00-11:00", "R", none, none, none,
           some ⟨"", some "p.mp4", some "t"⟩,
           [⟨some "A", some "a.mp4", none, ""⟩, ⟨some "B", some "b.mp4", none, ""⟩],
           [], [], ""⟩])
      [⟨"09:00-11:00", "N", some "n.mp4", none, none, none, [], [], [], ""⟩,
       ⟨"09:00-11:00", "R", none, none, none,
         some ⟨"", some "p.mp4", some "t"⟩,
         [⟨some "A", some "a.mp4", none, ""⟩, ⟨some "B", some "b.mp4", none, ""⟩],
         [], [], ""⟩] =
    mergeInteractiveEvents
      [⟨"09:00-11:00", "R", none, none, none, none,
        [⟨some "A", none, none, "old"⟩], [], [], "stored"⟩]
      [⟨"09:00-11:00", "N", some "n.mp4", none, none, none, [], [], [], ""⟩,
       ⟨"09:00-11:00", "R", none, none, none,
         some ⟨"", some "p.mp4", some "t"⟩,
         [⟨some "A", some "a.mp4", none, ""⟩, ⟨some "B", some "b.mp4", none, ""⟩],
         [], [], ""⟩] :=
  merge_idempotent _ _ (by decide) (by decide)

/-! ### Partial re-run isolation (claim C5) -/

/-- C5 (corrected, counterexample): the claim says the previously
persisted generation report is reloaded from storage and then upserted on
a partial re-run.  `_save_report` does neither: it dumps the current run
results over the file, so a previously stored scene entry that is not
part of the current run is gone from the stored report. -/
theorem save_report_overwrite_cex :
    saveReportStored (some (⟨[(0 : Nat)], [], []⟩ : Report Nat)) ⟨[], [], []⟩ =
      (⟨[], [], []⟩ : Report Nat) ∧
    (0 : Nat) ∈ allScenes (⟨[(0 : Nat)], [], []⟩ : Report Nat) ∧
    (0 : Nat) ∉ allScenes
      (saveReportStored (some (⟨[(0 : Nat)], [], []⟩ : Report Nat)) ⟨[], [], []⟩) := by
  refine ⟨rfl, ?_, ?_⟩ <;> decide

/-- C5 (corrected, amended): only the `interactive_data.json` file is
reloaded from storage and upserted on a partial re-run
(`generation_report.json` is overwritten with the current results).  For
that upsert the claimed isolation holds: every stored event whose
`(time_slot, event_type)` key is not among the keys of the newly
generated events is kept, byte-identical and at its position; un-touched
prior entries are never replaced. -/
theorem partial_rerun_untouched (base news : List MEvent) (i : Nat) (e : MEvent)
    (hi : base[i]? = some e)
    (h : eventKey e ∉ news.map eventKey) :
    (mergeInteractiveEvents base news)[i]? = some e := by
  unfold mergeInteractiveEvents upsertByKey
  have hlt : i < base.length := by
    by_contra hge
    rw [List.getElem?_eq_none (Nat.le_of_not_lt hge)] at hi
    cases hi
  rw [upsertFold_getElem?_stable eventKey mergeEventData true (base.map eventKey)
    news base i hlt ?hno]
  · exact hi
  case hno =>
    intro n hn heq
    have hKn := (lastIdxOf_mem heq).2
    have hKe : (base.map eventKey)[i]? = some (eventKey e) := by
      rw [List.getElem?_map, hi]
      rfl
    rw [hKe] at hKn
    have hkeq : eventKey n = eventKey e := (Option.some.inj hKn).symm
    exact h (hkeq ▸ List.mem_map_of_mem eventKey hn)

/-- Witness for C5 at a concrete stored report and a one-slot re-run. -/
theorem partial_rerun_untouched_witness :
    (mergeInteractiveEvents
      [⟨"07:00-09:00", "N", some "a.mp4", none, none, none, [], [], [], ""⟩]
      [⟨"09:00-11:00", "N", some "b.mp4", none, none, none, [], [], [], ""⟩])[0]? =
      some ⟨"07:00-09:00", "N", some "a.mp4", none, none, none, [], [], [], ""⟩ :=
  partial_rerun_untouched _ _ 0 _ rfl (by decide)

theorem noSubmitBeforeDownload_true (p : String) (tr : List CallEvent) :
    noSubmitBeforeDownload p true tr = true := by
  induction tr with
  | nil => rfl
  | cons e rest ih =>
    cases e with
    | submitVideo ref r => simpa [noSubmitBeforeDownload] using ih
    | download u dest ok => simpa [noSubmitBeforeDownload] using ih
    | genImage r => simpa [noSubmitBeforeDownload] using ih
    | waitVideo t r => simpa [noSubmitBeforeDownload] using ih
    | sleep s => simpa [noSubmitBeforeDownload] using ih

theorem noSubmitBeforeDownload_of_noSubmit (p : String) (b : Bool) (tr : List CallEvent)
    (h : ∀ e ∈ tr, isSubmitEvent e = false) :
    noSubmitBeforeDownload p b tr = true := by
  induction tr generalizing b with
  | nil => rfl
  | cons e rest ih =>
    have he := h e (List.mem_cons_self e rest)
    have hrest : ∀ e ∈ rest, isSubmitEvent e = false :=
      fun m hm => h m (List.mem_cons_of_mem e hm)
    cases e with
    | submitVideo ref r => simp [isSubmitEvent] at he
    | download u dest ok => simpa [noSubmitBeforeDownload] using ih _ hrest
    | genImage r => simpa [noSubmitBeforeDownload] using ih _ hrest
    | waitVideo t r => simpa [noSubmitBeforeDownload] using ih _ hrest
    | sleep s => simpa [noSubmitBeforeDownload] using ih _ hrest

theorem noSubmitBeforeDownload_append (p : String) (b : Bool) (t1 t2 : List CallEvent) :
    noSubmitBeforeDownload p b (t1 ++ t2) =
      (noSubmitBeforeDownload p b t1 &&
        noSubmitBeforeDownload p (b || hasGoodDownload p t1) t2) := by
  induction t1 generalizing b with
  | nil => simp [noSubmitBeforeDownload, hasGoodDownload]
  | cons e rest ih =>
    cases e with
    | submitVideo ref r =>
      cases b <;>
        simp [List.cons_append, noSubmitBeforeDownload, ih, hasGoodDownload]
    | download u dest ok =>
      by_cases hd : dest = p <;> cases b <;> cases ok <;>
        simp [List.cons_append, noSubmitBeforeDownload, ih, hasGoodDownload, hd,
          Bool.or_assoc]
    | genImage r =>
      simp [List.cons_append, noSubmitBeforeDownload, ih, hasGoodDownload]
    | waitVideo t r =>
      simp [List.cons_append, noSubmitBeforeDownload, ih, hasGoodDownload]
    | sleep s =>
      simp [List.cons_append, noSubmitBeforeDownload, ih, hasGoodDownload]

theorem urlsAfter_append (urls : List String) (t1 t2 : List CallEvent) :
    urlsAfter urls (t1 ++ t2) = urlsAfter (urlsAfter urls t1) t2 := by
  induction t1 generalizing urls with
  | nil => rfl
  | cons e rest ih =>
    cases e with
    | genImage r =>
      cases r with
      | some u => simp [List.cons_append, urlsAfter, ih]
      | none => simp [List.cons_append, urlsAfter, ih]
    | submitVideo ref r => simp [List.cons_append, urlsAfter, ih]
    | waitVideo t r => simp [List.cons_append, urlsAfter, ih]
    | download u d ok => simp [List.cons_append, urlsAfter, ih]
    | sleep s => simp [List.cons_append, urlsAfter, ih]

theorem urlsAfter_subset (urls : List String) (t : List CallEvent) {u : String}
    (h : u ∈ urls) : u ∈ urlsAfter urls t := by
  induction t generalizing urls with
  | nil => exact h
  | cons e rest ih =>
    cases e with
    | genImage r =>
      cases r with
      | some v => exact ih (v :: urls) (List.mem_cons_of_mem v h)
      | none => exact ih urls h
    | submitVideo ref r => exact ih urls h
    | waitVideo tid r => exact ih urls h
    | download url d ok => exact ih urls h
    | sleep s => exact ih urls h

theorem submitsUseGeneratedUrl_append (urls : List String) (t1 t2 : List CallEvent) :
    submitsUseGeneratedUrl urls (t1 ++ t2) =
      (submitsUseGeneratedUrl urls t1 &&
        submitsUseGeneratedUrl (urlsAfter urls t1) t2) := by
  induction t1 generalizing urls with
  | nil => simp [submitsUseGeneratedUrl, urlsAfter]
  | cons e rest ih =>
    cases e with
    | genImage r =>
      cases r with
      | some u => simp [List.cons_append, submitsUseGeneratedUrl, urlsAfter, ih]
      | none => simp [List.cons_append, submitsUseGeneratedUrl, urlsAfter, ih]
    | submitVideo ref r =>
      simp [List.cons_append, submitsUseGeneratedUrl, urlsAfter, ih, Bool.and_assoc]
    | waitVideo t r => simp [List.cons_append, submitsUseGeneratedUrl, urlsAfter, ih]
    | download u d ok => simp [List.cons_append, submitsUseGeneratedUrl, urlsAfter, ih]
    | sleep s => simp [List.cons_append, submitsUseGeneratedUrl, urlsAfter, ih]

theorem submitsUseGeneratedUrl_of_noSubmit (urls : List String) (tr : List CallEvent)
    (h : ∀ e ∈ tr, isSubmitEvent e = false) :
    submitsUseGeneratedUrl urls tr = true := by
  induction tr generalizing urls with
  | nil => rfl
  | cons e rest ih =>
    have he := h e (List.mem_cons_self e rest)
    have hrest : ∀ m ∈ rest, isSubmitEvent m = false :=
      fun m hm => h m (List.mem_cons_of_mem e hm)
    cases e with
    | genImage r =>
      cases r with
      | some u => simpa [submitsUseGeneratedUrl] using ih _ hrest
      | none => simpa [submitsUseGeneratedUrl] using ih _ hrest
    | submitVideo ref r => simp [isSubmitEvent] at he
    | waitVideo t r => simpa [submitsUseGeneratedUrl] using ih _ hrest
    | download u d ok => simpa [submitsUseGeneratedUrl] using ih _ hrest
    | sleep s => simpa [submitsUseGeneratedUrl] using ih _ hrest

theorem hasGoodDownload_exists {p : String} {tr : List CallEvent}
    (h : hasGoodDownload p tr = true) : ∃ u, CallEvent.download u p true ∈ tr := by
  unfold hasGoodDownload at h
  rcases List.any_eq_true.mp h with ⟨e, he, hm⟩
  cases e with
  | download u dest ok =>
    simp at hm
    rcases hm with ⟨hok, hdest⟩
    exact ⟨u, by rwa [hok, hdest] at he⟩
  | genImage r => simp at hm
  | submitVideo a b => simp at hm
  | waitVideo a b => simp at hm
  | sleep a => simp at hm

theorem hasGoodDownload_cons_of (p : String) (e : CallEvent) {tr : List CallEvent}
    (h : hasGoodDownload p tr = true) : hasGoodDownload p (e :: tr) = true := by
  unfold hasGoodDownload at h ⊢
  rw [List.any_cons, h]
  simp

/-- Facts about every run of the `generate_scene_image` loop: when it
returns, the returned value is the local image path and the trace ends in
a successful download of that path; the loop performs no `submit_video`
call; and every backoff it sleeps is exactly 10 seconds. -/
theorem genImageLoop_facts (env : ApiEnv) (p : String) :
    ∀ (fuel : Nat) (c : Counters),
      (∀ r, (genImageLoop env p fuel c).1 = some r →
        r = p ∧ hasGoodDownload p (genImageLoop env p fuel c).2.2 = true) ∧
      (∀ e ∈ (genImageLoop env p fuel c).2.2, isSubmitEvent e = false) ∧
      (∀ s, CallEvent.sleep s ∈ (genImageLoop env p fuel c).2.2 → s = 10) := by
  intro fuel
  induction fuel with
  | zero =>
    intro c
    refine ⟨fun r hr => by simp [genImageLoop] at hr, ?_, ?_⟩
    · intro e he
      simp [genImageLoop] at he
    · intro sNum hs
      simp [genImageLoop] at hs
  | succ fuel ih =>
    intro c
    cases hg : env.genImage c.gi with
    | some u =>
      by_cases hu : (u ≠ "" && strStartsWith u "http") = true
      · have hu1 : ¬u = "" := by
          intro he
          simp [he] at hu
        have hu2 : strStartsWith u "http" = true :=
          (by simpa using hu : ¬u = "" ∧ strStartsWith u "http" = true).2
        cases hd : env.download c.dl with
        | true =>
          have heq : genImageLoop env p (fuel + 1) c =
              (some p, ⟨c.gi + 1, c.sv, c.wv, c.dl + 1⟩,
                [CallEvent.genImage (some u), CallEvent.download u p true]) := by
            simp only [genImageLoop]
            rw [hg]
            simp [hu1, hu2, hd]
          refine ⟨?_, ?_, ?_⟩
          · intro r hr
            rw [heq] at hr
            simp at hr
            rw [heq]
            simp [hr, hasGoodDownload]
          · intro e he
            rw [heq] at he
            simp at he
            rcases he with he | he <;> simp [he, isSubmitEvent]
          · intro sNum hs
            rw [heq] at hs
            simp at hs
        | false =>
          rcases hrec : genImageLoop env p fuel (⟨c.gi + 1, c.sv, c.wv, c.dl + 1⟩ : Counters)
            with ⟨r3, c3, t3⟩
          have heq : genImageLoop env p (fuel + 1) c =
              (r3, c3, CallEvent.genImage (some u) :: CallEvent.download u p false ::
                CallEvent.sleep 10 :: t3) := by
            simp only [genImageLoop]
            rw [hg]
            simp [hu1, hu2, hd, hrec]
          have ihc := ih (⟨c.gi + 1, c.sv, c.wv, c.dl + 1⟩ : Counters)
          rw [hrec] at ihc
          refine ⟨?_, ?_, ?_⟩
          · intro r hr
            rw [heq] at hr
            simp at hr
            have := ihc.1 r (by simpa using hr)
            rw [heq]
            exact ⟨this.1, hasGoodDownload_cons_of _ _ (hasGoodDownload_cons_of _ _
              (hasGoodDownload_cons_of _ _ this.2))⟩
          · intro e he
            rw [heq] at he
            simp at he
            rcases he with he | he | he | he
            · simp [he, isSubmitEvent]
            · simp [he, isSubmitEvent]
            · simp [he, isSubmitEvent]
            · exact ihc.2.1 e he
          · intro sNum hs
            rw [heq] at hs
            simp at hs
            rcases hs with hs | hs
            · omega
            · exact ihc.2.2 sNum hs
      · have hu2 : ¬(¬u = "" ∧ strStartsWith u "http" = true) := by
          simpa using hu
        rcases hrec : genImageLoop env p fuel (⟨c.gi + 1, c.sv, c.wv, c.dl⟩ : Counters)
          with ⟨r3, c3, t3⟩
        have heq : genImageLoop env p (fuel + 1) c =
            (r3, c3, CallEvent.genImage (some u) :: CallEvent.sleep 10 :: t3) := by
          simp only [genImageLoop]
          rw [hg]
          simp [hu2, hrec]
        have ihc := ih (⟨c.gi + 1, c.sv, c.wv, c.dl⟩ : Counters)
        rw [hrec] at ihc
        refine ⟨?_, ?_, ?_⟩
        · intro r hr
          rw [heq] at hr
          simp at hr
          have := ihc.1 r (by simpa using hr)
          rw [heq]
          exact ⟨this.1, hasGoodDownload_cons_of _ _ (hasGoodDownload_cons_of _ _ this.2)⟩
        · intro e he
          rw [heq] at he
          simp at he
          rcases he with he | he | he
          · simp [he, isSubmitEvent]
          · simp [he, isSubmitEvent]
          · exact ihc.2.1 e he
        · intro sNum hs
          rw [heq] at hs
          simp at hs
          rcases hs with hs | hs
          · omega
          · exact ihc.2.2 sNum hs
    | none =>
      rcases hrec : genImageLoop env p fuel (⟨c.gi + 1, c.sv, c.wv, c.dl⟩ : Counters)
        with ⟨r3, c3, t3⟩
      have heq : genImageLoop env p (fuel + 1) c =
          (r3, c3, CallEvent.genImage none :: CallEvent.sleep 10 :: t3) := by
        simp only [genImageLoop]
        rw [hg]
        simp [hrec]
      have ihc := ih (⟨c.gi + 1, c.sv, c.wv, c.dl⟩ : Counters)
      rw [hrec] at ihc
      refine ⟨?_, ?_, ?_⟩
      · intro r hr
        rw [heq] at hr
        simp at hr
        have := ihc.1 r (by simpa using hr)
        rw [heq]
        exact ⟨this.1, hasGoodDownload_cons_of _ _ (hasGoodDownload_cons_of _ _ this.2)⟩
      · intro e he
        rw [heq] at he
        simp at he
        rcases he with he | he | he
        · simp [he, isSubmitEvent]
        · simp [he, isSubmitEvent]
        · exact ihc.2.1 e he
      · intro sNum hs
        rw [heq] at hs
        simp at hs
        rcases hs with hs | hs
        · omega
        · exact ihc.2.2 sNum hs

/-- When every download fails, `generate_scene_image` never returns: the
loop is still retrying after any number of iterations. -/
theorem genImageLoop_allFail (env : ApiEnv) (p : String)
    (h : ∀ j, env.download j = false) :
    ∀ (fuel : Nat) (c : Counters), (genImageLoop env p fuel c).1 = none := by
  intro fuel
  induction fuel with
  | zero => intro c; rfl
  | succ fuel ih =>
    intro c
    cases hg : env.genImage c.gi with
    | some u =>
      by_cases hu : (u ≠ "" && strStartsWith u "http") = true
      · have hu' : ¬u = "" ∧ strStartsWith u "http" = true := by simpa using hu
        rcases hrec : genImageLoop env p fuel (⟨c.gi + 1, c.sv, c.wv, c.dl + 1⟩ : Counters)
          with ⟨r3, c3, t3⟩
        have heq : (genImageLoop env p (fuel + 1) c).1 = r3 := by
          simp only [genImageLoop]
          rw [hg]
          simp [hu'.1, hu'.2, h c.dl, hrec]
        rw [heq]
        have := ih (⟨c.gi + 1, c.sv, c.wv, c.dl + 1⟩ : Counters)
        rw [hrec] at this
        exact this
      · have hu2 : ¬(¬u = "" ∧ strStartsWith u "http" = true) := by simpa using hu
        rcases hrec : genImageLoop env p fuel (⟨c.gi + 1, c.sv, c.wv, c.dl⟩ : Counters)
          with ⟨r3, c3, t3⟩
        have heq : (genImageLoop env p (fuel + 1) c).1 = r3 := by
          simp only [genImageLoop]
          rw [hg]
          simp [hu2, hrec]
        rw [heq]
        have := ih (⟨c.gi + 1, c.sv, c.wv, c.dl⟩ : Counters)
        rw [hrec] at this
        exact this
    | none =>
      rcases hrec : genImageLoop env p fuel (⟨c.gi + 1, c.sv, c.wv, c.dl⟩ : Counters)
        with ⟨r3, c3, t3⟩
      have heq : (genImageLoop env p (fuel + 1) c).1 = r3 := by
        simp only [genImageLoop]
        rw [hg]
        simp [hrec]
      rw [heq]
      have := ih (⟨c.gi + 1, c.sv, c.wv, c.dl⟩ : Counters)
      rw [hrec] at this
      exact this

/-- Facts about the reference-image loop of `generate_scene_video`: when
it returns a URL, that URL is non-empty, starts with `http`, and was
produced by a `generate_image` call recorded in the trace; and the loop
performs no `submit_video` call. -/
theorem refImageLoop_facts (env : ApiEnv) :
    ∀ (fuel : Nat) (c : Counters),
      (∀ u, (refImageLoop env fuel c).1 = some u →
        (¬u = "" ∧ strStartsWith u "http" = true) ∧
        ∀ urls, u ∈ urlsAfter urls (refImageLoop env fuel c).2.2) ∧
      (∀ e ∈ (refImageLoop env fuel c).2.2, isSubmitEvent e = false) := by
  intro fuel
  induction fuel with
  | zero =>
    intro c
    exact ⟨fun u hu => by simp [refImageLoop] at hu, fun e he => by simp [refImageLoop] at he⟩
  | succ fuel ih =>
    intro c
    by_cases hh : isHttp (env.genImage c.gi) = true
    · have heq : refImageLoop env (fuel + 1) c =
          (env.genImage c.gi, (⟨c.gi + 1, c.sv, c.wv, c.dl⟩ : Counters),
            [CallEvent.genImage (env.genImage c.gi)]) := by
        simp only [refImageLoop]
        rw [if_pos hh]
      refine ⟨?_, ?_⟩
      · intro u hu
        rw [heq] at hu
        simp at hu
        rw [heq]
        cases hg : env.genImage c.gi with
        | none => rw [hg] at hu; cases hu
        | some v =>
          rw [hg] at hu
          simp at hu
          rw [hg] at hh
          simp [isHttp] at hh
          subst hu
          refine ⟨⟨hh.1, hh.2⟩, ?_⟩
          intro urls
          simp [urlsAfter]
      · intro e he
        rw [heq] at he
        simp at he
        simp [he, isSubmitEvent]
    · rcases hrec : refImageLoop env fuel (⟨c.gi + 1, c.sv, c.wv, c.dl⟩ : Counters)
        with ⟨r3, c3, t3⟩
      have heq : refImageLoop env (fuel + 1) c =
          (r3, c3, CallEvent.genImage (env.genImage c.gi) :: CallEvent.sleep 10 :: t3) := by
        simp only [refImageLoop]
        rw [if_neg hh]
        rw [hrec]
      have ihc := ih (⟨c.gi + 1, c.sv, c.wv, c.dl⟩ : Counters)
      rw [hrec] at ihc
      refine ⟨?_, ?_⟩
      · intro u hu
        rw [heq] at hu
        simp at hu
        have := ihc.1 u (by simpa using hu)
        rw [heq]
        refine ⟨this.1, ?_⟩
        intro urls
        cases hg : env.genImage c.gi with
        | none => simpa [urlsAfter] using this.2 urls
        | some v => simpa [urlsAfter] using this.2 (v :: urls)
      · intro e he
        rw [heq] at he
        simp at he
        rcases he with he | he | he
        · simp [he, isSubmitEvent]
        · simp [he, isSubmitEvent]
        · exact ihc.2 e he

/-- Facts about every run of the bounded video retry loop: the video path
of the result either is the one the loop started with or is the local
video path backed by a successful download recorded in the trace; the
task id of the result is the id of the most recent successful submission
(starting from the incoming task id); and every `submit_video` call uses
the fixed reference URL, so the generated-URL scan holds whenever that
URL is a generated http URL. -/
theorem videoLoop_facts (env : ApiEnv) (vp refUrl : String) :
    ∀ (rem : Nat) (res : VidResult) (c : Counters),
      ((videoLoop env vp refUrl rem res c).1.video_path = res.video_path ∨
        ((videoLoop env vp refUrl rem res c).1.video_path = some vp ∧
          ∃ u, CallEvent.download u vp true ∈ (videoLoop env vp refUrl rem res c).2.2)) ∧
      ((videoLoop env vp refUrl rem res c).1.task_id =
        (videoLoop env vp refUrl rem res c).2.2.foldl lastSubmitStep res.task_id) ∧
      (∀ urls, strStartsWith refUrl "http" = true → refUrl ∈ urls →
        submitsUseGeneratedUrl urls (videoLoop env vp refUrl rem res c).2.2 = true) := by
  intro rem
  induction rem with
  | zero =>
    intro res c
    refine ⟨Or.inl rfl, rfl, ?_⟩
    intro urls _ _
    rfl
  | succ rem ih =>
    intro res c
    cases hs : env.submitVideo c.sv with
    | none =>
      rcases hrec : videoLoop env vp refUrl rem res (⟨c.gi, c.sv + 1, c.wv, c.dl⟩ : Counters)
        with ⟨r3, c3, t3⟩
      have heq : videoLoop env vp refUrl (rem + 1) res c =
          (r3, c3, CallEvent.submitVideo (some refUrl) none :: CallEvent.sleep 10 :: t3) := by
        simp only [videoLoop]
        rw [hs]
        simp [hrec]
      have ihc := ih res (⟨c.gi, c.sv + 1, c.wv, c.dl⟩ : Counters)
      rw [hrec] at ihc
      rw [heq]
      refine ⟨?_, ?_, ?_⟩
      · rcases ihc.1 with h | ⟨h1, u, h2⟩
        · exact Or.inl h
        · exact Or.inr ⟨h1, u, by simp [h2]⟩
      · simpa [List.foldl_cons, lastSubmitStep] using ihc.2.1
      · intro urls hhttp hmem
        simp only [submitsUseGeneratedUrl]
        rw [ihc.2.2 urls hhttp hmem]
        simp [hhttp, hmem]
    | some tid =>
      cases hw : env.waitVideo c.wv with
      | some w =>
        by_cases hhw : (w ≠ "" && strStartsWith w "http") = true
        · have hw' : ¬w = "" ∧ strStartsWith w "http" = true := by simpa using hhw
          cases hd : env.download c.dl with
          | true =>
            have heq : videoLoop env vp refUrl (rem + 1) res c =
                (⟨some vp, some tid⟩, (⟨c.gi, c.sv + 1, c.wv + 1, c.dl + 1⟩ : Counters),
                  [CallEvent.submitVideo (some refUrl) (some tid),
                   CallEvent.waitVideo tid (some w),
                   CallEvent.download w vp true]) := by
              simp only [videoLoop]
              rw [hs, hw]
              simp [hw'.1, hw'.2, hd]
            rw [heq]
            refine ⟨Or.inr ⟨rfl, w, by simp⟩, rfl, ?_⟩
            intro urls hhttp hmem
            simp [submitsUseGeneratedUrl, hhttp, hmem]
          | false =>
            rcases hrec : videoLoop env vp refUrl rem
                (⟨res.video_path, some tid⟩ : VidResult)
                (⟨c.gi, c.sv + 1, c.wv + 1, c.dl + 1⟩ : Counters)
              with ⟨r3, c3, t3⟩
            have heq : videoLoop env vp refUrl (rem + 1) res c =
                (r3, c3, CallEvent.submitVideo (some refUrl) (some tid) ::
                  CallEvent.waitVideo tid (some w) ::
                  CallEvent.download w vp false :: CallEvent.sleep 10 :: t3) := by
              simp only [videoLoop]
              rw [hs, hw]
              simp [hw'.1, hw'.2, hd, hrec]
            have ihc := ih (⟨res.video_path, some tid⟩ : VidResult)
              (⟨c.gi, c.sv + 1, c.wv + 1, c.dl + 1⟩ : Counters)
            rw [hrec] at ihc
            rw [heq]
            refine ⟨?_, ?_, ?_⟩
            · rcases ihc.1 with h | ⟨h1, u, h2⟩
              · exact Or.inl h
              · exact Or.inr ⟨h1, u, by simp [h2]⟩
            · simpa [List.foldl_cons, lastSubmitStep] using ihc.2.1
            · intro urls hhttp hmem
              simp only [submitsUseGeneratedUrl]
              rw [ihc.2.2 urls hhttp hmem]
              simp [hhttp, hmem]
        · have hw2 : ¬(¬w = "" ∧ strStartsWith w "http" = true) := by simpa using hhw
          rcases hrec : videoLoop env vp refUrl rem
              (⟨res.video_path, some tid⟩ : VidResult)
              (⟨c.gi, c.sv + 1, c.wv + 1, c.dl⟩ : Counters)
            with ⟨r3, c3, t3⟩
          have heq : videoLoop env vp refUrl (rem + 1) res c =
              (r3, c3, CallEvent.submitVideo (some refUrl) (some tid) ::
                CallEvent.waitVideo tid (some w) :: CallEvent.sleep 10 :: t3) := by
            simp only [videoLoop]
            rw [hs, hw]
            simp [hw2, hrec]
          have ihc := ih (⟨res.video_path, some tid⟩ : VidResult)
            (⟨c.gi, c.sv + 1, c.wv + 1, c.dl⟩ : Counters)
          rw [hrec] at ihc
          rw [heq]
          refine ⟨?_, ?_, ?_⟩
          · rcases ihc.1 with h | ⟨h1, u, h2⟩
            · exact Or.inl h
            · exact Or.inr ⟨h1, u, by simp [h2]⟩
          · simpa [List.foldl_cons, lastSubmitStep] using ihc.2.1
          · intro urls hhttp hmem
            simp only [submitsUseGeneratedUrl]
            rw [ihc.2.2 urls hhttp hmem]
            simp [hhttp, hmem]
      | none =>
        by_cases hrem : 0 < rem
        · rcases hrec : videoLoop env vp refUrl rem
              (⟨res.video_path, some tid⟩ : VidResult)
              (⟨c.gi, c.sv + 1, c.wv + 1, c.dl⟩ : Counters)
            with ⟨r3, c3, t3⟩
          have heq : videoLoop env vp refUrl (rem + 1) res c =
              (r3, c3, CallEvent.submitVideo (some refUrl) (some tid) ::
                CallEvent.waitVideo tid none :: CallEvent.sleep 10 :: t3) := by
            simp only [videoLoop]
            rw [hs, hw]
            simp [hrem, hrec]
          have ihc := ih (⟨res.video_path, some tid⟩ : VidResult)
            (⟨c.gi, c.sv + 1, c.wv + 1, c.dl⟩ : Counters)
          rw [hrec] at ihc
          rw [heq]
          refine ⟨?_, ?_, ?_⟩
          · rcases ihc.1 with h | ⟨h1, u, h2⟩
            · exact Or.inl h
            · exact Or.inr ⟨h1, u, by simp [h2]⟩
          · simpa [List.foldl_cons, lastSubmitStep] using ihc.2.1
          · intro urls hhttp hmem
            simp only [submitsUseGeneratedUrl]
            rw [ihc.2.2 urls hhttp hmem]
            simp [hhttp, hmem]
        · have heq : videoLoop env vp refUrl (rem + 1) res c =
              (⟨res.video_path, some tid⟩, (⟨c.gi, c.sv + 1, c.wv + 1, c.dl⟩ : Counters),
                [CallEvent.submitVideo (some refUrl) (some tid),
                 CallEvent.waitVideo tid none]) := by
            simp only [videoLoop]
            rw [hs, hw]
            simp [hrem]
          rw [heq]
          refine ⟨Or.inl rfl, rfl, ?_⟩
          intro urls hhttp hmem
          simp [submitsUseGeneratedUrl, hhttp, hmem]

theorem submitCount_cons (e : CallEvent) (tr : List CallEvent) :
    submitCount (e :: tr) = (if isSubmitEvent e then 1 else 0) + submitCount tr := by
  unfold submitCount
  rw [List.filter_cons]
  split
  · simp [Nat.add_comm]
  · simp

theorem submitCount_append (t1 t2 : List CallEvent) :
    submitCount (t1 ++ t2) = submitCount t1 + submitCount t2 := by
  unfold submitCount
  rw [List.filter_append, List.length_append]

theorem submitCount_eq_zero {tr : List CallEvent}
    (h : ∀ e ∈ tr, isSubmitEvent e = false) : submitCount tr = 0 := by
  unfold submitCount
  have : tr.filter isSubmitEvent = [] := by
    rw [List.filter_eq_nil_iff]
    intro e he
    simp [h e he]
  rw [this]
  rfl

theorem foldl_lastSubmitStep_of_noSubmit {tr : List CallEvent} (a : Option String)
    (h : ∀ e ∈ tr, isSubmitEvent e = false) :
    tr.foldl lastSubmitStep a = a := by
  induction tr generalizing a with
  | nil => rfl
  | cons e rest ih =>
    have he := h e (List.mem_cons_self e rest)
    have hrest : ∀ m ∈ rest, isSubmitEvent m = false :=
      fun m hm => h m (List.mem_cons_of_mem e hm)
    rw [List.foldl_cons]
    have hstep : lastSubmitStep a e = a := by
      cases e with
      | submitVideo ref r => simp [isSubmitEvent] at he
      | genImage r => rfl
      | waitVideo t r => rfl
      | download u d ok => rfl
      | sleep n => rfl
    rw [hstep, ih a hrest]

theorem foldl_lastSubmitStep_isSome (tr : List CallEvent) (t : String) :
    ∃ t2, tr.foldl lastSubmitStep (some t) = some t2 := by
  induction tr generalizing t with
  | nil => exact ⟨t, rfl⟩
  | cons e rest ih =>
    rw [List.foldl_cons]
    cases e with
    | submitVideo ref r =>
      cases r with
      | some t3 => exact ih t3
      | none => exact ih t
    | genImage r => exact ih t
    | waitVideo a b => exact ih t
    | download u d ok => exact ih t
    | sleep n => exact ih t

theorem lastSubmitId_eq_none_iff (tr : List CallEvent) :
    lastSubmitId tr = none ↔ ∀ ref t, CallEvent.submitVideo ref (some t) ∉ tr := by
  unfold lastSubmitId
  induction tr with
  | nil => simp
  | cons e rest ih =>
    rw [List.foldl_cons]
    cases e with
    | submitVideo ref r =>
      cases r with
      | some t =>
        simp only [lastSubmitStep]
        constructor
        · intro h
          rcases foldl_lastSubmitStep_isSome rest t with ⟨t2, ht2⟩
          rw [ht2] at h
          cases h
        · intro h
          exact absurd (List.mem_cons_self _ _) (h ref t)
      | none =>
        simp only [lastSubmitStep]
        rw [ih]
        constructor
        · intro h ref2 t2 hmem
          rcases List.mem_cons.mp hmem with hmem | hmem
          · cases hmem
          · exact h ref2 t2 hmem
        · intro h ref2 t2 hmem
          exact h ref2 t2 (List.mem_cons_of_mem _ hmem)
    | genImage r =>
      simp only [lastSubmitStep]
      rw [ih]
      constructor
      · intro h ref2 t2 hmem
        rcases List.mem_cons.mp hmem with hmem | hmem
        · cases hmem
        · exact h ref2 t2 hmem
      · intro h ref2 t2 hmem
        exact h ref2 t2 (List.mem_cons_of_mem _ hmem)
    | waitVideo a b =>
      simp only [lastSubmitStep]
      rw [ih]
      constructor
      · intro h ref2 t2 hmem
        rcases List.mem_cons.mp hmem with hmem | hmem
        · cases hmem
        · exact h ref2 t2 hmem
      · intro h ref2 t2 hmem
        exact h ref2 t2 (List.mem_cons_of_mem _ hmem)
    | download u d ok =>
      simp only [lastSubmitStep]
      rw [ih]
      constructor
      · intro h ref2 t2 hmem
        rcases List.mem_cons.mp hmem with hmem | hmem
        · cases hmem
        · exact h ref2 t2 hmem
      · intro h ref2 t2 hmem
        exact h ref2 t2 (List.mem_cons_of_mem _ hmem)
    | sleep n =>
      simp only [lastSubmitStep]
      rw [ih]
      constructor
      · intro h ref2 t2 hmem
        rcases List.mem_cons.mp hmem with hmem | hmem
        · cases hmem
        · exact h ref2 t2 hmem
      · intro h ref2 t2 hmem
        exact h ref2 t2 (List.mem_cons_of_mem _ hmem)

theorem genImageLoop_success_step (env : ApiEnv) (p : String) (fuel : Nat)
    (c : Counters) (u : String) (hg : env.genImage c.gi = some u)
    (hu1 : ¬u = "") (hu2 : strStartsWith u "http" = true)
    (hd : env.download c.dl = true) :
    genImageLoop env p (fuel + 1) c =
      (some p, (⟨c.gi + 1, c.sv, c.wv, c.dl + 1⟩ : Counters),
        [CallEvent.genImage (some u), CallEvent.download u p true]) := by
  simp only [genImageLoop]
  rw [hg]
  simp [hu1, hu2, hd]

theorem refImageLoop_success_step (env : ApiEnv) (fuel : Nat) (c : Counters)
    (u : String) (hg : env.genImage c.gi = some u)
    (hu1 : ¬u = "") (hu2 : strStartsWith u "http" = true) :
    refImageLoop env (fuel + 1) c =
      (some u, (⟨c.gi + 1, c.sv, c.wv, c.dl⟩ : Counters),
        [CallEvent.genImage (some u)]) := by
  have hh : isHttp (env.genImage c.gi) = true := by
    rw [hg]
    simp [isHttp, hu1, hu2]
  simp only [refImageLoop]
  rw [if_pos hh, hg]

/-- One timed-out iteration of the video retry loop while retries
remain. -/
theorem videoLoop_timeout_step (env : ApiEnv) (vp refUrl : String) (m : Nat)
    (hm : 0 < m) (res : VidResult) (c : Counters) (tid : String)
    (hsub : env.submitVideo c.sv = some tid) (hwait : env.waitVideo c.wv = none) :
    videoLoop env vp refUrl (m + 1) res c =
      ((videoLoop env vp refUrl m (⟨res.video_path, some tid⟩ : VidResult)
          (⟨c.gi, c.sv + 1, c.wv + 1, c.dl⟩ : Counters)).1,
       (videoLoop env vp refUrl m (⟨res.video_path, some tid⟩ : VidResult)
          (⟨c.gi, c.sv + 1, c.wv + 1, c.dl⟩ : Counters)).2.1,
       CallEvent.submitVideo (some refUrl) (some tid) ::
         CallEvent.waitVideo tid none :: CallEvent.sleep 10 ::
         (videoLoop env vp refUrl m (⟨res.video_path, some tid⟩ : VidResult)
            (⟨c.gi, c.sv + 1, c.wv + 1, c.dl⟩ : Counters)).2.2) := by
  simp only [videoLoop]
  rw [hsub, hwait]
  simp [hm]

/-- The exhausting iteration of the video retry loop: the last allowed
submission times out and the loop returns with a null video path and the
task id of that submission. -/
theorem videoLoop_timeout_last (env : ApiEnv) (vp refUrl : String)
    (res : VidResult) (c : Counters) (tid : String)
    (hsub : env.submitVideo c.sv = some tid) (hwait : env.waitVideo c.wv = none) :
    videoLoop env vp refUrl 1 res c =
      (⟨res.video_path, some tid⟩, (⟨c.gi, c.sv + 1, c.wv + 1, c.dl⟩ : Counters),
        [CallEvent.submitVideo (some refUrl) (some tid),
         CallEvent.waitVideo tid none]) := by
  simp only [videoLoop]
  rw [hsub, hwait]
  simp

/-- When every submission returns a job id and every `wait_for_video`
call reports no result, a video stage allowed `rem + 1` loop iterations
performs exactly `rem + 1` submissions and returns the incoming video
path together with the id of the last submission. -/
theorem videoLoop_all_timeout (env : ApiEnv) (vp refUrl : String) (sid : Nat → String)
    (hsub : ∀ i, env.submitVideo i = some (sid i))
    (hwait : ∀ i, env.waitVideo i = none) :
    ∀ (rem : Nat) (res : VidResult) (c : Counters),
      (videoLoop env vp refUrl (rem + 1) res c).1 =
        ⟨res.video_path, some (sid (c.sv + rem))⟩ ∧
      submitCount (videoLoop env vp refUrl (rem + 1) res c).2.2 = rem + 1 := by
  intro rem
  induction rem with
  | zero =>
    intro res c
    rw [videoLoop_timeout_last env vp refUrl res c (sid c.sv) (hsub c.sv) (hwait c.wv)]
    refine ⟨rfl, ?_⟩
    rw [submitCount_cons, submitCount_cons]
    simp [isSubmitEvent, submitCount]
  | succ rem ih =>
    intro res c
    rw [videoLoop_timeout_step env vp refUrl (rem + 1) (Nat.succ_pos rem) res c
      (sid c.sv) (hsub c.sv) (hwait c.wv)]
    have ihc := ih (⟨res.video_path, some (sid c.sv)⟩ : VidResult)
      (⟨c.gi, c.sv + 1, c.wv + 1, c.dl⟩ : Counters)
    refine ⟨?_, ?_⟩
    · rw [ihc.1]
      have : c.sv + 1 + rem = c.sv + (rem + 1) := by omega
      rw [this]
    · rw [submitCount_cons, submitCount_cons, submitCount_cons, ihc.2]
      simp [isSubmitEvent]
      omega

/-- With non-terminal poll responses and the wall-clock timeout reached
within the available iterations, the polling loop of `wait_for_video`
returns null. -/
theorem waitLoop_nonterminal (poll : Nat → Option StatusInfo) (elapsed : Nat → Nat)
    (cfg : WaitCfg)
    (hpoll : ∀ t, ∃ info, poll t = some info ∧
      (info.status = some "processing" ∨ info.status = some "submitted")) :
    ∀ (fuel t0 consec : Nat), (∃ d, d < fuel ∧ elapsed (t0 + d) ≥ cfg.timeoutSec) →
      waitLoop poll elapsed cfg fuel t0 consec = some none := by
  intro fuel
  induction fuel with
  | zero =>
    intro t0 consec h
    rcases h with ⟨d, hd, _⟩
    omega
  | succ fuel ih =>
    intro t0 consec h
    rcases h with ⟨d, hd, hto⟩
    by_cases hT : elapsed t0 ≥ cfg.timeoutSec
    · simp only [waitLoop]
      rw [if_pos hT]
    · obtain ⟨info, hpi, hst⟩ := hpoll t0
      have heq : waitLoop poll elapsed cfg (fuel + 1) t0 consec =
          waitLoop poll elapsed cfg fuel (t0 + 1) 0 := by
        simp only [waitLoop]
        rw [if_neg hT, hpi]
        rcases hst with h1 | h1 <;> simp [h1]
      rw [heq]
      apply ih
      have hd0 : d ≠ 0 := by
        intro h0
        subst h0
        simp at hto
        omega
      refine ⟨d - 1, by omega, ?_⟩
      have : t0 + 1 + (d - 1) = t0 + d := by omega
      rw [this]
      exact hto

/-- Inversion of a completed `processScene` run into its stage loops. -/
theorem processScene_elim (env : ApiEnv) (hip hsp : Bool) (p vp : String)
    (imgF refF maxR : Nat) {res : SceneRunResult} {c : Counters} {tr : List CallEvent}
    (h : processScene env hip hsp p vp imgF refF maxR = some (res, c, tr)) :
    (∃ ip c1 tr1, hip = true ∧
      genImageLoop env p imgF (⟨0, 0, 0, 0⟩ : Counters) = (some ip, c1, tr1) ∧
      ((∃ refUrl cr trR vr c2 trV, hsp = true ∧
          refImageLoop env refF c1 = (some refUrl, cr, trR) ∧
          videoLoop env vp refUrl (maxR + 1) (⟨none, none⟩ : VidResult) cr = (vr, c2, trV) ∧
          res = ⟨some ip, vr.video_path, vr.task_id⟩ ∧ c = c2 ∧ tr = tr1 ++ (trR ++ trV)) ∨
        (hsp = false ∧ res = ⟨some ip, none, none⟩ ∧ c = c1 ∧ tr = tr1))) ∨
    (hip = false ∧
      ((∃ refUrl cr trR vr c2 trV, hsp = true ∧
          refImageLoop env refF (⟨0, 0, 0, 0⟩ : Counters) = (some refUrl, cr, trR) ∧
          videoLoop env vp refUrl (maxR + 1) (⟨none, none⟩ : VidResult) cr = (vr, c2, trV) ∧
          res = ⟨none, vr.video_path, vr.task_id⟩ ∧ c = c2 ∧ tr = trR ++ trV) ∨
        (hsp = false ∧ res = ⟨none, none, none⟩ ∧ c = ⟨0, 0, 0, 0⟩ ∧ tr = []))) := by
  have genElim : ∀ (c1 : Counters) (vr : VidResult) (c2 : Counters) (trG : List CallEvent),
      generateSceneVideo env vp maxR refF c1 = some (vr, c2, trG) →
      ∃ refUrl cr trR trV,
        refImageLoop env refF c1 = (some refUrl, cr, trR) ∧
        videoLoop env vp refUrl (maxR + 1) (⟨none, none⟩ : VidResult) cr = (vr, c2, trV) ∧
        trG = trR ++ trV := by
    intro c1 vr c2 trG hG
    unfold generateSceneVideo at hG
    rcases href : refImageLoop env refF c1 with ⟨ro, cr, trR⟩
    rw [href] at hG
    cases ro with
    | none => simp at hG
    | some refUrl =>
      rcases hvl : videoLoop env vp refUrl (maxR + 1) (⟨none, none⟩ : VidResult) cr
        with ⟨r2, c3, trV⟩
      dsimp only at hG
      rw [hvl] at hG
      have h2 := Option.some.inj hG
      have ha : r2 = vr := congrArg Prod.fst h2
      have hb : c3 = c2 := congrArg (fun x => x.2.1) h2
      have hc : trR ++ trV = trG := congrArg (fun x => x.2.2) h2
      exact ⟨refUrl, cr, trR, trV, rfl, by rw [hvl, ha, hb], hc.symm⟩
  unfold processScene at h
  cases hip with
  | true =>
    rw [if_pos rfl] at h
    rcases hgen : genImageLoop env p imgF (⟨0, 0, 0, 0⟩ : Counters) with ⟨ro, c1, tr1⟩
    rw [hgen] at h
    cases ro with
    | none => simp at h
    | some ip =>
      dsimp only at h
      cases hsp with
      | true =>
        rw [if_pos rfl] at h
        cases hG : generateSceneVideo env vp maxR refF c1 with
        | none => rw [hG] at h; cases h
        | some out2 =>
          rcases out2 with ⟨vr, c2, trG⟩
          rw [hG] at h
          dsimp only at h
          have h2 := Option.some.inj h
          have ha : res = ⟨some ip, vr.video_path, vr.task_id⟩ :=
            (congrArg Prod.fst h2).symm
          have hb : c = c2 := (congrArg (fun x => x.2.1) h2).symm
          have hc : tr = tr1 ++ trG := (congrArg (fun x => x.2.2) h2).symm
          rcases genElim c1 vr c2 trG hG with ⟨refUrl, cr, trR, trV, h1, h3, h4⟩
          exact Or.inl ⟨ip, c1, tr1, rfl, rfl,
            Or.inl ⟨refUrl, cr, trR, vr, c2, trV, rfl, h1, h3, ha, hb,
              by rw [hc, h4]⟩⟩
      | false =>
        rw [if_neg (by simp)] at h
        have h2 := Option.some.inj h
        have ha : res = ⟨some ip, none, none⟩ := (congrArg Prod.fst h2).symm
        have hb : c = c1 := (congrArg (fun x => x.2.1) h2).symm
        have hc : tr = tr1 := (congrArg (fun x => x.2.2) h2).symm
        exact Or.inl ⟨ip, c1, tr1, rfl, rfl, Or.inr ⟨rfl, ha, hb, hc⟩⟩
  | false =>
    rw [if_neg (by simp)] at h
    cases hsp with
    | true =>
      rw [if_pos rfl] at h
      cases hG : generateSceneVideo env vp maxR refF (⟨0, 0, 0, 0⟩ : Counters) with
      | none => rw [hG] at h; cases h
      | some out2 =>
        rcases out2 with ⟨vr, c2, trG⟩
        rw [hG] at h
        dsimp only at h
        have h2 := Option.some.inj h
        have ha : res = ⟨none, vr.video_path, vr.task_id⟩ :=
          (congrArg Prod.fst h2).symm
        have hb : c = c2 := (congrArg (fun x => x.2.1) h2).symm
        have hc : tr = trG := (congrArg (fun x => x.2.2) h2).symm
        rcases genElim _ vr c2 trG hG with ⟨refUrl, cr, trR, trV, h1, h3, h4⟩
        exact Or.inr ⟨rfl,
          Or.inl ⟨refUrl, cr, trR, vr, c2, trV, rfl, h1, h3, ha, hb, by rw [hc, h4]⟩⟩
    | false =>
      rw [if_neg (by simp)] at h
      have h2 := Option.some.inj h
      have ha : res = ⟨none, none, none⟩ := (congrArg Prod.fst h2).symm
      have hb : c = ⟨0, 0, 0, 0⟩ := (congrArg (fun x => x.2.1) h2).symm
      have hc : tr = [] := (congrArg (fun x => x.2.2) h2).symm
      exact Or.inr ⟨rfl, Or.inr ⟨rfl, ha, hb, hc⟩⟩

/-! ### Claim theorems for the scene processor -/

/-- C6 (confirmed): the image stage retries without bound and never
surfaces failure.  If `generate_scene_image` returns, its result is the
local path of a successfully downloaded image — never null; when every
download fails the loop is still retrying after any number of
iterations; and every backoff between attempts is the fixed 10-second
sleep. -/
theorem image_stage_unbounded_retry (env : ApiEnv) (p : String) (fuel : Nat)
    (c : Counters) :
    (∀ r, (genImageLoop env p fuel c).1 = some r →
      r = p ∧ ∃ u, CallEvent.download u p true ∈ (genImageLoop env p fuel c).2.2) ∧
    ((∀ j, env.download j = false) → (genImageLoop env p fuel c).1 = none) ∧
    (∀ s, CallEvent.sleep s ∈ (genImageLoop env p fuel c).2.2 → s = 10) := by
  refine ⟨?_, ?_, (genImageLoop_facts env p fuel c).2.2⟩
  · intro r hr
    have hfact := (genImageLoop_facts env p fuel c).1 r hr
    exact ⟨hfact.1, hasGoodDownload_exists hfact.2⟩
  · intro hfail
    exact genImageLoop_allFail env p hfail fuel c

/-- Witness for C6: a run that succeeds on the first attempt returns the
image path with its successful download, and a run whose downloads always
fail is still running after five iterations. -/
theorem image_stage_unbounded_retry_witness :
    ("i.png" = "i.png" ∧ ∃ u, CallEvent.download u "i.png" true ∈
      (genImageLoop ⟨fun _ => some "http://img", fun _ => none, fun _ => none,
        fun _ => true⟩ "i.png" 2 ⟨0, 0, 0, 0⟩).2.2) ∧
    (genImageLoop ⟨fun _ => some "http://img", fun _ => none, fun _ => none,
      fun _ => false⟩ "i.png" 5 ⟨0, 0, 0, 0⟩).1 = none :=
  ⟨(image_stage_unbounded_retry
      ⟨fun _ => some "http://img", fun _ => none, fun _ => none, fun _ => true⟩
      "i.png" 2 ⟨0, 0, 0, 0⟩).1 "i.png" (by decide),
   (image_stage_unbounded_retry
      ⟨fun _ => some "http://img", fun _ => none, fun _ => none, fun _ => false⟩
      "i.png" 5 ⟨0, 0, 0, 0⟩).2.1 (fun _ => rfl)⟩

/-- C8 (confirmed): download failure is never recorded as success.  Any
image path in a scene result is the scene image path backed by a
`download_file` call that returned true, and any video path is the local
video path backed by a successful download; a download that returned
false never yields a recorded artifact path. -/
theorem download_failure_never_recorded (env : ApiEnv) (hip hsp : Bool)
    (p vp : String) (imgF refF maxR : Nat) (res : SceneRunResult) (c : Counters)
    (tr : List CallEvent)
    (h : processScene env hip hsp p vp imgF refF maxR = some (res, c, tr)) :
    (∀ q, res.image_path = some q →
      q = p ∧ ∃ u, CallEvent.download u p true ∈ tr) ∧
    (∀ q, res.video_path = some q →
      q = vp ∧ ∃ u, CallEvent.download u vp true ∈ tr) := by
  rcases processScene_elim env hip hsp p vp imgF refF maxR h with
    ⟨ip, c1, tr1, _, hgen, hrest⟩ | ⟨_, hrest⟩
  · have hfacts := genImageLoop_facts env p imgF (⟨0, 0, 0, 0⟩ : Counters)
    rw [hgen] at hfacts
    have hip2 := hfacts.1 ip rfl
    rcases hrest with ⟨refUrl, cr, trR, vr, c2, trV, _, href, hvl, hres, hc, htr⟩ |
      ⟨_, hres, hc, htr⟩
    · subst hres
      subst htr
      have hvfacts := videoLoop_facts env vp refUrl (maxR + 1) (⟨none, none⟩ : VidResult) cr
      rw [hvl] at hvfacts
      constructor
      · intro q hq
        have hq1 : some ip = some q := hq
        have hq2 : ip = q := Option.some.inj hq1
        subst hq2
        rcases hasGoodDownload_exists hip2.2 with ⟨u, hu⟩
        exact ⟨hip2.1, u, by simp [hu]⟩
      · intro q hq
        have hq2 : vr.video_path = some q := hq
        rcases hvfacts.1 with hnone | ⟨hvp, u, hu⟩
        · rw [hq2] at hnone
          cases hnone
        · rw [hq2] at hvp
          exact ⟨Option.some.inj hvp, u, by simp [hu]⟩
    · subst hres
      subst htr
      constructor
      · intro q hq
        have hq1 : some ip = some q := hq
        have hq2 : ip = q := Option.some.inj hq1
        subst hq2
        rcases hasGoodDownload_exists hip2.2 with ⟨u, hu⟩
        exact ⟨hip2.1, u, hu⟩
      · intro q hq
        cases hq
  · rcases hrest with ⟨refUrl, cr, trR, vr, c2, trV, _, href, hvl, hres, hc, htr⟩ |
      ⟨_, hres, hc, htr⟩
    · subst hres
      subst htr
      have hvfacts := videoLoop_facts env vp refUrl (maxR + 1) (⟨none, none⟩ : VidResult) cr
      rw [hvl] at hvfacts
      constructor
      · intro q hq
        cases hq
      · intro q hq
        have hq2 : vr.video_path = some q := hq
        rcases hvfacts.1 with hnone | ⟨hvp, u, hu⟩
        · rw [hq2] at hnone
          cases hnone
        · rw [hq2] at hvp
          exact ⟨Option.some.inj hvp, u, by simp [hu]⟩
    · subst hres
      subst htr
      constructor
      · intro q hq
        cases hq
      · intro q hq
        cases hq

/-- Witness for C8 at a run where both stages succeed. -/
theorem download_failure_never_recorded_witness :
    ("i.png" = "i.png" ∧ ∃ u, CallEvent.download u "i.png" true ∈
      [CallEvent.genImage (some "http://a"), CallEvent.download "http://a" "i.png" true,
       CallEvent.genImage (some "http://a"),
       CallEvent.submitVideo (some "http://a") (some "t0"),
       CallEvent.waitVideo "t0" (some "http://v"),
       CallEvent.download "http://v" "v.mp4" true]) ∧
    ("v.mp4" = "v.mp4" ∧ ∃ u, CallEvent.download u "v.mp4" true ∈
      [CallEvent.genImage (some "http://a"), CallEvent.download "http://a" "i.png" true,
       CallEvent.genImage (some "http://a"),
       CallEvent.submitVideo (some "http://a") (some "t0"),
       CallEvent.waitVideo "t0" (some "http://v"),
       CallEvent.download "http://v" "v.mp4" true]) :=
  ⟨(download_failure_never_recorded
      ⟨fun _ => some "http://a", fun _ => some "t0", fun _ => some "http://v", fun _ => true⟩
      true true "i.png" "v.mp4" 1 1 0 ⟨some "i.png", some "v.mp4", some "t0"⟩ ⟨2, 1, 1, 2⟩ _
      (by decide)).1 "i.png" rfl,
   (download_failure_never_recorded
      ⟨fun _ => some "http://a", fun _ => some "t0", fun _ => some "http://v", fun _ => true⟩
      true true "i.png" "v.mp4" 1 1 0 ⟨some "i.png", some "v.mp4", some "t0"⟩ ⟨2, 1, 1, 2⟩ _
      (by decide)).2 "v.mp4" rfl⟩

/-- Counterexample to C3 as stated: a scene whose image prompt is empty
but whose sora prompt is non-empty skips the image stage entirely, so
`submit_video` is invoked with no prior successful image download for
that scene. -/
theorem submit_before_download_cex :
    (processScene
      ⟨fun _ => some "http://a", fun _ => some "t0", fun _ => some "http://v",
        fun _ => true⟩
      false true "i.png" "v.mp4" 1 1 0).map
      (fun x => noSubmitBeforeDownload "i.png" false x.2.2) = some false := by
  decide

/-- C3 (corrected): for every scene WITH a non-empty image prompt, no
`submit_video` call occurs before a successful download of that scene's
image: the image stage runs to a successful download before the video
stage starts.  Scenes without an image prompt submit video with no prior
download. -/
theorem submit_after_image_download (env : ApiEnv) (hsp : Bool) (p vp : String)
    (imgF refF maxR : Nat) (res : SceneRunResult) (c : Counters)
    (tr : List CallEvent)
    (h : processScene env true hsp p vp imgF refF maxR = some (res, c, tr)) :
    noSubmitBeforeDownload p false tr = true := by
  rcases processScene_elim env true hsp p vp imgF refF maxR h with
    ⟨ip, c1, tr1, _, hgen, hrest⟩ | ⟨hfalse, _⟩
  · have hfacts := genImageLoop_facts env p imgF (⟨0, 0, 0, 0⟩ : Counters)
    rw [hgen] at hfacts
    have hgood : hasGoodDownload p tr1 = true := (hfacts.1 ip rfl).2
    have hnosub : ∀ e ∈ tr1, isSubmitEvent e = false := hfacts.2.1
    have h1 := noSubmitBeforeDownload_of_noSubmit p false tr1 hnosub
    rcases hrest with ⟨refUrl, cr, trR, vr, c2, trV, _, href, hvl, hres, hc, htr⟩ |
      ⟨_, hres, hc, htr⟩
    · subst htr
      rw [noSubmitBeforeDownload_append, h1, hgood]
      simp [noSubmitBeforeDownload_true]
    · subst htr
      exact h1
  · cases hfalse

/-- Witness for C3 (corrected) at a run with both prompts present. -/
theorem submit_after_image_download_witness :
    noSubmitBeforeDownload "i2.png" false
      [CallEvent.genImage (some "http://a"),
       CallEvent.download "http://a" "i2.png" true,
       CallEvent.genImage (some "http://a"),
       CallEvent.submitVideo (some "http://a") (some "t0"),
       CallEvent.waitVideo "t0" (some "http://v"),
       CallEvent.download "http://v" "v2.mp4" true] = true :=
  submit_after_image_download
    ⟨fun _ => some "http://a", fun _ => some "t0", fun _ => some "http://v",
      fun _ => true⟩
    true "i2.png" "v2.mp4" 1 1 0 ⟨some "i2.png", some "v2.mp4", some "t0"⟩
    ⟨2, 1, 1, 2⟩ _ (by decide)

/-- C7 (confirmed): every `submit_video` call of a scene run carries a
non-null reference URL that starts with http and was produced by an
earlier successful `generate_image` call of the same run — video never
starts without a known-good reference image URL. -/
theorem video_requires_generated_ref (env : ApiEnv) (hip hsp : Bool)
    (p vp : String) (imgF refF maxR : Nat) (res : SceneRunResult) (c : Counters)
    (tr : List CallEvent)
    (h : processScene env hip hsp p vp imgF refF maxR = some (res, c, tr)) :
    submitsUseGeneratedUrl [] tr = true := by
  rcases processScene_elim env hip hsp p vp imgF refF maxR h with
    ⟨ip, c1, tr1, _, hgen, hrest⟩ | ⟨_, hrest⟩
  · have hfacts := genImageLoop_facts env p imgF (⟨0, 0, 0, 0⟩ : Counters)
    rw [hgen] at hfacts
    have h1 := submitsUseGeneratedUrl_of_noSubmit [] tr1 hfacts.2.1
    rcases hrest with ⟨refUrl, cr, trR, vr, c2, trV, _, href, hvl, hres, hc, htr⟩ |
      ⟨_, hres, hc, htr⟩
    · subst htr
      have hreffacts := refImageLoop_facts env refF c1
      rw [href] at hreffacts
      have h2 := submitsUseGeneratedUrl_of_noSubmit (urlsAfter [] tr1) trR hreffacts.2
      have hurl := hreffacts.1 refUrl rfl
      have hvfacts := videoLoop_facts env vp refUrl (maxR + 1)
        (⟨none, none⟩ : VidResult) cr
      rw [hvl] at hvfacts
      have h3 := hvfacts.2.2 (urlsAfter (urlsAfter [] tr1) trR) hurl.1.2
        (hurl.2 (urlsAfter [] tr1))
      rw [submitsUseGeneratedUrl_append, h1, submitsUseGeneratedUrl_append, h2, h3]
      rfl
    · subst htr
      exact h1
  · rcases hrest with ⟨refUrl, cr, trR, vr, c2, trV, _, href, hvl, hres, hc, htr⟩ |
      ⟨_, hres, hc, htr⟩
    · subst htr
      have hreffacts := refImageLoop_facts env refF (⟨0, 0, 0, 0⟩ : Counters)
      rw [href] at hreffacts
      have h2 := submitsUseGeneratedUrl_of_noSubmit [] trR hreffacts.2
      have hurl := hreffacts.1 refUrl rfl
      have hvfacts := videoLoop_facts env vp refUrl (maxR + 1)
        (⟨none, none⟩ : VidResult) cr
      rw [hvl] at hvfacts
      have h3 := hvfacts.2.2 (urlsAfter [] trR) hurl.1.2 (hurl.2 [])
      rw [submitsUseGeneratedUrl_append, h2, h3]
      rfl
    · subst htr
      rfl

/-- Witness for C7 at a run with both prompts present. -/
theorem video_requires_generated_ref_witness :
    submitsUseGeneratedUrl []
      [CallEvent.genImage (some "http://a"),
       CallEvent.download "http://a" "i3.png" true,
       CallEvent.genImage (some "http://a"),
       CallEvent.submitVideo (some "http://a") (some "t0"),
       CallEvent.waitVideo "t0" (some "http://v"),
       CallEvent.download "http://v" "v3.mp4" true] = true :=
  video_requires_generated_ref
    ⟨fun _ => some "http://a", fun _ => some "t0", fun _ => some "http://v",
      fun _ => true⟩
    true true "i3.png" "v3.mp4" 1 1 0 ⟨some "i3.png", some "v3.mp4", some "t0"⟩
    ⟨2, 1, 1, 2⟩ _ (by decide)

/-- C10 (confirmed): every successful `generate_scene_video` run returns a
record with both a video path field and a task id field, and the task id
field holds the job id of the most recent successful video submission of
the run, being null exactly when no submission ever succeeded — the last
provider job id is preserved even when the video path is null. -/
theorem video_result_task_id (env : ApiEnv) (vp : String) (maxR refF : Nat)
    (c : Counters) (r : VidResult) (c2 : Counters) (tr : List CallEvent)
    (h : generateSceneVideo env vp maxR refF c = some (r, c2, tr)) :
    r.task_id = lastSubmitId tr ∧
    (r.task_id = none ↔ ∀ ref t, CallEvent.submitVideo ref (some t) ∉ tr) := by
  unfold generateSceneVideo at h
  rcases href : refImageLoop env refF c with ⟨ro, cr, trR⟩
  rw [href] at h
  cases ro with
  | none => simp at h
  | some refUrl =>
    rcases hvl : videoLoop env vp refUrl (maxR + 1) (⟨none, none⟩ : VidResult) cr
      with ⟨r2, c3, trV⟩
    dsimp only at h
    rw [hvl] at h
    have h2 := Option.some.inj h
    have ha : r2 = r := congrArg Prod.fst h2
    have hc : trR ++ trV = tr := congrArg (fun x => x.2.2) h2
    subst ha
    subst hc
    have hvfacts := videoLoop_facts env vp refUrl (maxR + 1)
      (⟨none, none⟩ : VidResult) cr
    rw [hvl] at hvfacts
    have htask : r2.task_id = trV.foldl lastSubmitStep none := hvfacts.2.1
    have hreffacts := refImageLoop_facts env refF c
    rw [href] at hreffacts
    have hrnosub : ∀ e ∈ trR, isSubmitEvent e = false := hreffacts.2
    have hfold : lastSubmitId (trR ++ trV) = trV.foldl lastSubmitStep none := by
      unfold lastSubmitId
      rw [List.foldl_append, foldl_lastSubmitStep_of_noSubmit none hrnosub]
    have hfirst : r2.task_id = lastSubmitId (trR ++ trV) := by
      rw [hfold]
      exact htask
    refine ⟨hfirst, ?_⟩
    rw [hfirst]
    exact lastSubmitId_eq_none_iff (trR ++ trV)

/-- Witness for C10 at a run whose single submission succeeds. -/
theorem video_result_task_id_witness :
    some "t0" = lastSubmitId
      [CallEvent.genImage (some "http://a"),
       CallEvent.submitVideo (some "http://a") (some "t0"),
       CallEvent.waitVideo "t0" (some "http://v"),
       CallEvent.download "http://v" "v4.mp4" true] ∧
    ((some "t0" : Option String) = none ↔ ∀ ref t, CallEvent.submitVideo ref (some t) ∉
      [CallEvent.genImage (some "http://a"),
       CallEvent.submitVideo (some "http://a") (some "t0"),
       CallEvent.waitVideo "t0" (some "http://v"),
       CallEvent.download "http://v" "v4.mp4" true]) :=
  video_result_task_id
    ⟨fun _ => some "http://a", fun _ => some "t0", fun _ => some "http://v",
      fun _ => true⟩
    "v4.mp4" 0 1 ⟨0, 0, 0, 0⟩ ⟨some "v4.mp4", some "t0"⟩ ⟨1, 1, 1, 1⟩ _ (by decide)

/-- C2 (confirmed): with a provider whose video job never reaches a
terminal state — every image generation yields an http URL, every video
submission returns a job id, every status poll reports a non-terminal
status, and the wall clock reaches the configured timeout within the
polling budget — a scene run with max_retry_on_timeout = k performs
exactly k + 1 video submissions and then returns terminally with a null
video path while the previously generated image path is preserved.  Every
timeout inside wait_for_video returns directly, so its outer retry loop
never runs a second pass. -/
theorem video_timeout_retry_bound (k imgF refF : Nat) (p vp : String)
    (sid g : Nat → String) (cfg : WaitCfg)
    (polls : Nat → Nat → Option StatusInfo) (elapsed : Nat → Nat → Nat)
    (wfuel : Nat → Nat)
    (hg : ∀ i, ¬g i = "" ∧ strStartsWith (g i) "http" = true)
    (hpoll : ∀ i t, ∃ info, polls i t = some info ∧
      (info.status = some "processing" ∨ info.status = some "submitted"))
    (hto : ∀ i, ∃ d, d < wfuel i ∧ elapsed i d ≥ cfg.timeoutSec)
    (himg : 0 < imgF) (href : 0 < refF) :
    ∃ c tr,
      processScene
        ⟨fun i => some (g i), fun i => some (sid i),
         fun i => (waitForVideo "sora2" (polls i) (elapsed i) cfg (wfuel i)).join,
         fun _ => true⟩
        true true p vp imgF refF k = some (⟨some p, none, some (sid k)⟩, c, tr) ∧
      submitCount tr = k + 1 := by
  obtain ⟨m, rfl⟩ : ∃ m, imgF = m + 1 := ⟨imgF - 1, by omega⟩
  obtain ⟨rf, rfl⟩ : ∃ rf, refF = rf + 1 := ⟨refF - 1, by omega⟩
  have hwaitv : ∀ i, (waitForVideo "sora2" (polls i) (elapsed i) cfg (wfuel i)).join
      = (none : Option String) := by
    intro i
    unfold waitForVideo
    by_cases hq : ("sora2" = "sora2" ∧ cfg.queryAvailable = false)
    · rw [if_pos hq]
      rfl
    · rw [if_neg hq]
      have hrun : waitLoop (polls i) (elapsed i) cfg (wfuel i) 0 0 = some none := by
        refine waitLoop_nonterminal (polls i) (elapsed i) cfg (hpoll i) (wfuel i) 0 0 ?_
        rcases hto i with ⟨d, hd1, hd2⟩
        refine ⟨d, hd1, ?_⟩
        rw [Nat.zero_add]
        exact hd2
      rw [hrun]
      rfl
  have key : ∀ env : ApiEnv,
      (∀ i, env.genImage i = some (g i)) →
      (∀ i, env.submitVideo i = some (sid i)) →
      (∀ i, env.waitVideo i = none) →
      (∀ i, env.download i = true) →
      ∃ c tr,
        processScene env true true p vp (m + 1) (rf + 1) k =
          some (⟨some p, none, some (sid k)⟩, c, tr) ∧
        submitCount tr = k + 1 := by
    intro env hgi hsv hwv hdl
    have hgen : genImageLoop env p (m + 1) (⟨0, 0, 0, 0⟩ : Counters) =
        (some p, (⟨1, 0, 0, 1⟩ : Counters),
          [CallEvent.genImage (some (g 0)), CallEvent.download (g 0) p true]) :=
      genImageLoop_success_step env p m (⟨0, 0, 0, 0⟩ : Counters) (g 0) (hgi 0)
        (hg 0).1 (hg 0).2 (hdl 0)
    have hrefeq : refImageLoop env (rf + 1) (⟨1, 0, 0, 1⟩ : Counters) =
        (some (g 1), (⟨2, 0, 0, 1⟩ : Counters), [CallEvent.genImage (some (g 1))]) :=
      refImageLoop_success_step env rf (⟨1, 0, 0, 1⟩ : Counters) (g 1) (hgi 1)
        (hg 1).1 (hg 1).2
    rcases hvl : videoLoop env vp (g 1) (k + 1) (⟨none, none⟩ : VidResult)
      (⟨2, 0, 0, 1⟩ : Counters) with ⟨vr, c2, trV⟩
    have hall := videoLoop_all_timeout env vp (g 1) sid hsv hwv k
      (⟨none, none⟩ : VidResult) (⟨2, 0, 0, 1⟩ : Counters)
    rw [hvl] at hall
    have hvr : vr = (⟨none, some (sid k)⟩ : VidResult) := by
      have h1 := hall.1
      simpa using h1
    have hcount : submitCount trV = k + 1 := hall.2
    refine ⟨c2, [CallEvent.genImage (some (g 0)), CallEvent.download (g 0) p true] ++
      ([CallEvent.genImage (some (g 1))] ++ trV), ?_, ?_⟩
    · unfold processScene
      rw [if_pos rfl, hgen]
      dsimp only
      rw [if_pos rfl]
      unfold generateSceneVideo
      rw [hrefeq]
      dsimp only
      rw [hvl]
      dsimp only
      rw [hvr]
    · rw [submitCount_append, submitCount_append, hcount]
      simp [submitCount, isSubmitEvent]
  exact key
    ⟨fun i => some (g i), fun i => some (sid i),
     fun i => (waitForVideo "sora2" (polls i) (elapsed i) cfg (wfuel i)).join,
     fun _ => true⟩
    (fun _ => rfl) (fun _ => rfl) hwaitv (fun _ => rfl)

/-- Witness for C2 at k = 1 with a mock whose polls always report
processing and whose clock is already past a zero-second timeout. -/
theorem video_timeout_retry_bound_witness :
    ∃ c tr,
      processScene
        ⟨fun _ => some "http://a", fun _ => some "tid",
         fun i => (waitForVideo "sora2"
           ((fun _ _ => some ⟨some "processing", none, none⟩ :
              Nat → Nat → Option StatusInfo) i)
           ((fun _ _ => 0 : Nat → Nat → Nat) i) (⟨0, 1, true, true⟩ : WaitCfg)
           ((fun _ => 1 : Nat → Nat) i)).join,
         fun _ => true⟩
        true true "i5.png" "v5.mp4" 1 1 1 =
        some (⟨some "i5.png", none, some "tid"⟩, c, tr) ∧
      submitCount tr = 1 + 1 := by
  have hA : ¬("http://a" : String) = "" := by decide
  have hB : strStartsWith "http://a" "http" = true := by decide
  exact video_timeout_retry_bound 1 1 1 "i5.png" "v5.mp4" (fun _ => "tid")
    (fun _ => "http://a") ⟨0, 1, true, true⟩
    (fun _ _ => some ⟨some "processing", none, none⟩) (fun _ _ => 0) (fun _ => 1)
    (fun _ => ⟨hA, hB⟩)
    (fun _ _ => ⟨⟨some "processing", none, none⟩, rfl, Or.inl rfl⟩)
    (fun _ => ⟨0, Nat.zero_lt_one, Nat.le_refl 0⟩)
    Nat.zero_lt_one Nat.zero_lt_one

end CDA
